import Mathlib

/-!
# Forest-fire cellular automaton (`src/main.cpp`)

A shallow embedding of the `Grid` class of `src/main.cpp` and theorems about it.

Modelling conventions.

* `int` values are `Int`; vector indices are `int`s converted to an unsigned index, so a
  negative or too large index is a `Fault.OutOfRange`: the code checks no index, and in C++
  such an access is undefined behaviour, not an error that a caller can handle.  Integer
  arithmetic is exact, except for the product `size * size`, which is wrapped to 32 bits.
* `float` values are the rationals that binary32 represents, and every `float` operation is
  the exact operation followed by the rounding `f32` to binary32 (to nearest, ties to even,
  with subnormals).  The exponent is unbounded above: overflow to infinity, and with it NaN,
  is not modelled.  The literal `0.1f` is its binary32 value, and `std::atan2` is tabulated on
  the directions whose bearing is a multiple of 45 degrees, which are the only ones
  `updateCell` ever asks for.
* `rand()` is an explicit stream of results threaded through every function that calls it;
  `RAND_MAX` is a field of the stream, since its value is fixed by the C library and not by
  this repository.
* `for` loops are recursive functions on the number of iterations left.
-/

namespace ForestFire

/-- Vegetation types: `enum class CellType`. -/
inductive CellType where
  | NormalForest
  | DryGrass
  | DenseTrees
  | Water
  | Burning
  | Burned
  deriving DecidableEq, Repr

/-- Ways in which a call of the C++ program does not return a value: an exception that it
throws, or an access that leaves defined behaviour (see `Fault.isException`). -/
inductive Fault where
  /-- Indexing a `std::vector` outside `[0, size())`. -/
  | OutOfRange
  /-- Constructing a `std::vector` with a negative element count (`std::length_error`). -/
  | LengthError
  deriving DecidableEq, Repr

/-- The state of the C library generator: `RAND_MAX` and the results of all future calls of
`rand()`, in order. -/
structure Rand where
  RAND_MAX : Nat
  out : Nat → Nat

/-- The generator after `k` calls of `rand()`. -/
def Rand.drop (s : Rand) (k : Nat) : Rand :=
  { s with out := fun n => s.out (n + k) }

/-- What the C standard promises of `rand()`: `0 <= rand() <= RAND_MAX`, with `RAND_MAX`
positive. -/
def Rand.Valid (s : Rand) : Prop :=
  0 < s.RAND_MAX ∧ ∀ n, s.out n ≤ s.RAND_MAX

/-- One call of `rand()`. -/
def rand (s : Rand) : Nat × Rand :=
  (s.out 0, s.drop 1)

/-- Rounding of a rational to the nearest integer, a tie going to the even one. -/
def roundHalfEven (x : ℚ) : Int :=
  if x - ⌊x⌋ < 1 / 2 then ⌊x⌋
  else if 1 / 2 < x - ⌊x⌋ then ⌊x⌋ + 1
  else if ⌊x⌋ % 2 = 0 then ⌊x⌋ else ⌊x⌋ + 1

/-- The exponent of the binade of `q` in binary32: the integer `e` with
`2 ^ e <= |q| < 2 ^ (e + 1)`, and `-126` for a subnormal or zero `q`. -/
def f32Exp (q : ℚ) : Int :=
  if q = 0 then -126 else max (Int.log 2 |q|) (-126)

/-- The spacing of the binary32 values in the binade of `q`: 24 bits of significand. -/
def f32Ulp (q : ℚ) : ℚ :=
  (2 : ℚ) ^ (f32Exp q - 23)

/-- Rounding of a rational to binary32 (`float`), to nearest with ties to even.  The exponent
is unbounded above, so a value beyond the largest `float` is rounded like any other instead
of becoming infinite. -/
def f32 (q : ℚ) : ℚ :=
  (roundHalfEven (q / f32Ulp q) : ℚ) * f32Ulp q

/-- The literal `0.1f`: the binary32 value nearest to one tenth, `13421773 * 2 ^ (-27)`. -/
def tenthF32 : ℚ := 13421773 / 134217728

/-- The expression `static_cast<float>(rand()) / RAND_MAX`: `rand()` is converted to `float`,
`RAND_MAX` is converted to `float` for the division, and the quotient is rounded. -/
def randUnit (s : Rand) : ℚ × Rand :=
  (f32 (f32 ((rand s).1 : ℚ) / f32 (s.RAND_MAX : ℚ)), (rand s).2)

/-- The member `cells`: a vector of rows. -/
abbrev Cells := List (List CellType)

/-- The class `Grid`: the members `size` and `cells`. -/
structure Grid where
  size : Int
  cells : Cells
  deriving DecidableEq, Repr

/-- The read `cells[y][x]`. -/
def readCell (cells : Cells) (y x : Int) : Except Fault CellType :=
  if 0 ≤ y ∧ 0 ≤ x then
    match cells[y.toNat]? with
    | none => .error .OutOfRange
    | some row =>
      match row[x.toNat]? with
      | none => .error .OutOfRange
      | some c => .ok c
  else .error .OutOfRange

/-- The assignment `cells[y][x] = v`. -/
def writeCell (cells : Cells) (y x : Int) (v : CellType) : Except Fault Cells :=
  if 0 ≤ y ∧ 0 ≤ x then
    match cells[y.toNat]? with
    | none => .error .OutOfRange
    | some row =>
      if x.toNat < row.length then .ok (cells.set y.toNat (row.set x.toNat v))
      else .error .OutOfRange
  else .error .OutOfRange

/-- A grid as the constructor leaves it: `size` rows of `size` cells each. -/
def Grid.WF (g : Grid) : Prop :=
  0 ≤ g.size ∧ g.cells.length = g.size.toNat ∧ ∀ row ∈ g.cells, row.length = g.size.toNat

instance (g : Grid) : Decidable g.WF := by
  unfold Grid.WF; infer_instance

/-- The method `Grid::getCell`. -/
def getCell (g : Grid) (x y : Int) : Except Fault CellType :=
  readCell g.cells y x

/-- Two's-complement wrap of a mathematical integer to a 32-bit `int`. -/
def wrapInt32 (n : Int) : Int :=
  (n + 2147483648) % 4294967296 - 2147483648

/-- The conversion `static_cast<int>(f)`: truncation toward zero.  When the truncated value
is outside the range of `int` the conversion is undefined in C++; the value here is the one
that the conversion instruction of x86-64 returns, `INT_MIN`. -/
def truncToInt (q : ℚ) : Int :=
  let t : Int := if 0 ≤ q then ⌊q⌋ else ⌈q⌉
  if -2147483648 ≤ t ∧ t ≤ 2147483647 then t else -2147483648

/-- The loop `for (int i = 0; i < num_water_cells; ++i)` of `initializeGrid`, with `n`
iterations left. -/
def waterLoop (size : Int) : Nat → Cells → Rand → Except Fault (Cells × Rand)
  | 0, cells, s => .ok (cells, s)
  | n + 1, cells, s =>
    let x : Int := Int.tmod ((rand s).1 : Int) size
    let s1 := (rand s).2
    let y : Int := Int.tmod ((rand s1).1 : Int) size
    let s2 := (rand s1).2
    match writeCell cells y x .Water with
    | .error e => .error e
    | .ok cells1 => waterLoop size n cells1 s2

/-- The method `Grid::initializeGrid`.  The product `size * size` is an `int` product (wrapped
to 32 bits) converted to `float` and multiplied by `water_ratio` in `float`; `3 * size` is
kept exact, since a grid whose `3 * size` overflows has more than `10^17` cells. -/
def initializeGrid (g : Grid) (water_ratio : ℚ) (s : Rand) : Except Fault (Grid × Rand) :=
  match writeCell g.cells (Int.tdiv g.size 2) (Int.tdiv g.size 2) .Burning with
  | .error e => .error e
  | .ok c1 =>
    match writeCell c1 (Int.tdiv g.size 4) (Int.tdiv g.size 4) .DryGrass with
    | .error e => .error e
    | .ok c2 =>
      match writeCell c2 (Int.tdiv (3 * g.size) 4) (Int.tdiv (3 * g.size) 4) .DenseTrees with
      | .error e => .error e
      | .ok c3 =>
        let num_water_cells : Int :=
          truncToInt (f32 (f32 (wrapInt32 (g.size * g.size) : ℚ) * water_ratio))
        match waterLoop g.size num_water_cells.toNat c3 s with
        | .error e => .error e
        | .ok (c4, s1) => .ok ({ g with cells := c4 }, s1)

/-- The constructor `Grid(int size, float water_ratio)`. -/
def Grid.create (size : Int) (water_ratio : ℚ) (s : Rand) : Except Fault (Grid × Rand) :=
  if size < 0 then .error .LengthError
  else
    initializeGrid
      { size := size
        cells := List.replicate size.toNat (List.replicate size.toNat CellType.NormalForest) }
      water_ratio s

/-- The body of the inner loop of `getNeighbors` for one `(dx, dy)`. -/
def neighborStep (size x y dx : Int) (neighbors : List (Int × Int)) (dy : Int) :
    List (Int × Int) :=
  if dx = 0 ∧ dy = 0 then neighbors
  else
    let nx := x + dx
    let ny := y + dy
    if nx ≥ 0 ∧ nx < size ∧ ny ≥ 0 ∧ ny < size then neighbors ++ [(nx, ny)]
    else neighbors

/-- The method `Grid::getNeighbors`: `dx = -1, 0, 1` outer, `dy = -1, 0, 1` inner. -/
def getNeighbors (g : Grid) (x y : Int) : List (Int × Int) :=
  ([-1, 0, 1] : List Int).foldl
    (fun neighbors dx => ([-1, 0, 1] : List Int).foldl (neighborStep g.size x y dx) neighbors)
    []

/-- The expression `std::atan2(dy, dx) * 180 / M_PI` on integer arguments, converted to
`float` as `calculateAngle` returns it: the bearing of the offset `(dx, dy)` in degrees, in
the range -180..180.  `std::atan2` is a function of the C library, computed in `double`; it
is tabulated here on the axes and the diagonals, where the bearing is a multiple of 45 and
the conversion to `float` gives that multiple (`atan2(0, 0)` is `0`, and `atan2(0, dx)` is
`180` for `dx < 0` since an `int` zero converts to `+0.0`).  For every other offset the
bearing is irrational and the table gives `0`; `updateCell` never asks for one, as
`getNeighbors` only returns offsets in `{-1, 0, 1}`. -/
def atan2Deg (dy dx : Int) : ℚ :=
  if dy = 0 then (if dx < 0 then 180 else 0)
  else if dx = 0 then (if 0 < dy then 90 else -90)
  else if dx = dy then (if 0 < dx then 45 else -135)
  else if dx = -dy then (if 0 < dx then -45 else 135)
  else 0

/-- The method `Grid::calculateAngle`. -/
def calculateAngle (x1 y1 x2 y2 : Int) : ℚ :=
  atan2Deg (y2 - y1) (x2 - x1)

/-- The method `Grid::calculateDirectionalInfluence`. -/
def calculateDirectionalInfluence (w_direction angle : ℚ) : ℚ :=
  let angle_diff := |f32 (w_direction - angle)|
  let angle_diff := min angle_diff (f32 (360 - angle_diff))
  f32 (1 - f32 (angle_diff / 180))

/-- The method `Grid::getVegetationFactor`. -/
def getVegetationFactor (type : CellType) : ℚ :=
  match type with
  | .NormalForest => 1
  | .DryGrass => 3 / 2
  | .DenseTrees => 1 / 2
  | .Water => 0
  | _ => 1

/-- The loop `for (const auto& neighbor : getNeighbors(x, y))` of `updateCell`: the result is
`true` when the loop body returned `Burning`, `false` when the loop ran to its end. -/
def spreadLoop (g : Grid) (x y : Int) (current : CellType) (p w_speed w_direction : ℚ) :
    List (Int × Int) → Rand → Except Fault (Bool × Rand)
  | [], s => .ok (false, s)
  | neighbor :: rest, s =>
    match readCell g.cells neighbor.2 neighbor.1 with
    | .error e => .error e
    | .ok c =>
      if c = CellType.Burning then
        let angle := calculateAngle x y neighbor.1 neighbor.2
        let directional_influence := calculateDirectionalInfluence w_direction angle
        let vegetation_factor := getVegetationFactor current
        let adjusted_p :=
          f32 (f32 (p * vegetation_factor) *
            f32 (1 + f32 (f32 (tenthF32 * w_speed) * directional_influence)))
        if (randUnit s).1 < adjusted_p then .ok (true, (randUnit s).2)
        else spreadLoop g x y current p w_speed w_direction rest (randUnit s).2
      else spreadLoop g x y current p w_speed w_direction rest s

/-- The method `Grid::updateCell`. -/
def updateCell (g : Grid) (x y : Int) (p pstart w_speed w_direction : ℚ) (s : Rand) :
    Except Fault (CellType × Rand) :=
  match readCell g.cells y x with
  | .error e => .error e
  | .ok current =>
    if current = CellType.Burning then .ok (CellType.Burned, s)
    else if current = CellType.Burned ∨ current = CellType.Water then .ok (current, s)
    else
      match spreadLoop g x y current p w_speed w_direction (getNeighbors g x y) s with
      | .error e => .error e
      | .ok (true, s1) => .ok (CellType.Burning, s1)
      | .ok (false, s1) =>
        if (randUnit s1).1 < pstart then .ok (CellType.Burning, (randUnit s1).2)
        else .ok (current, (randUnit s1).2)

/-- The inner loop `for (int x = ...; x < size; ++x)` of `update` on row `y`, with `n`
iterations left: it reads the old grid `g` and writes `new_cells`. -/
def updateInner (g : Grid) (p pstart w_speed w_direction : ℚ) (y : Int) :
    Nat → Int → Cells → Rand → Except Fault (Cells × Rand)
  | 0, _, new_cells, s => .ok (new_cells, s)
  | n + 1, x, new_cells, s =>
    match updateCell g x y p pstart w_speed w_direction s with
    | .error e => .error e
    | .ok (c, s1) =>
      match writeCell new_cells y x c with
      | .error e => .error e
      | .ok new_cells1 => updateInner g p pstart w_speed w_direction y n (x + 1) new_cells1 s1

/-- The outer loop `for (int y = ...; y < size; ++y)` of `update`, with `n` iterations
left. -/
def updateOuter (g : Grid) (p pstart w_speed w_direction : ℚ) :
    Nat → Int → Cells → Rand → Except Fault (Cells × Rand)
  | 0, _, new_cells, s => .ok (new_cells, s)
  | n + 1, y, new_cells, s =>
    match updateInner g p pstart w_speed w_direction y g.size.toNat 0 new_cells s with
    | .error e => .error e
    | .ok (new_cells1, s1) => updateOuter g p pstart w_speed w_direction n (y + 1) new_cells1 s1

/-- The method `Grid::update`. -/
def update (g : Grid) (p pstart w_speed w_direction : ℚ) (s : Rand) :
    Except Fault (Grid × Rand) :=
  match updateOuter g p pstart w_speed w_direction g.size.toNat 0 g.cells s with
  | .error e => .error e
  | .ok (new_cells, s1) => .ok ({ g with cells := new_cells }, s1)

/-- The driver loop of `ForestFireSim::run`, restricted to the grid: `n` successive calls of
`update` with the same parameters. -/
def updateN (p pstart w_speed w_direction : ℚ) : Nat → Grid → Rand → Except Fault (Grid × Rand)
  | 0, g, s => .ok (g, s)
  | n + 1, g, s =>
    match update g p pstart w_speed w_direction s with
    | .error e => .error e
    | .ok (g1, s1) => updateN p pstart w_speed w_direction n g1 s1

/-- The generator state with which `update` calls `updateCell(x, y)`: the state left by the
sweep of rows `0 .. y-1` and of the cells `0 .. x-1` of row `y`. -/
def randAt (g : Grid) (p pstart w_speed w_direction : ℚ) (s : Rand) (x y : Int) :
    Except Fault Rand :=
  match updateOuter g p pstart w_speed w_direction y.toNat 0 g.cells s with
  | .error e => .error e
  | .ok (new_cells, s1) =>
    match updateInner g p pstart w_speed w_direction y x.toNat 0 new_cells s1 with
    | .error e => .error e
    | .ok (_, s2) => .ok s2

/-- The cell array has `N` rows of `N` cells. -/
def Dim (cs : Cells) (N : Nat) : Prop :=
  cs.length = N ∧ ∀ row ∈ cs, row.length = N

/-- A generator all of whose draws are `k`, with `RAND_MAX = m`. -/
def constRand (m k : Nat) : Rand :=
  { RAND_MAX := m, out := fun _ => k }

/-- The value of `RAND_MAX` in the GNU C library. -/
def glibcRandMax : Nat := 2147483647

/-- The generator that returns `RAND_MAX` at every call. -/
def maxRand : Rand := constRand glibcRandMax glibcRandMax

/-- A `2 × 2` grid with one cell of each of four states. -/
def sampleGrid : Grid :=
  { size := 2
    cells := [[CellType.Water, CellType.Burning], [CellType.NormalForest, CellType.Burned]] }

/-- A `1 × 1` grid holding a single `NormalForest` cell. -/
def forest1 : Grid :=
  { size := 1, cells := [[CellType.NormalForest]] }

/-- The end-to-end scenario: a `5 × 5` grid of `NormalForest` with `(2,2)` `Burning`. -/
def forest5 : Grid :=
  { size := 5
    cells :=
      [ [.NormalForest, .NormalForest, .NormalForest, .NormalForest, .NormalForest],
        [.NormalForest, .NormalForest, .NormalForest, .NormalForest, .NormalForest],
        [.NormalForest, .NormalForest, .Burning, .NormalForest, .NormalForest],
        [.NormalForest, .NormalForest, .NormalForest, .NormalForest, .NormalForest],
        [.NormalForest, .NormalForest, .NormalForest, .NormalForest, .NormalForest] ] }

/-- The scenario grid with the centre burned out and no other cell changed. -/
def forest5Stuck : Grid :=
  { size := 5
    cells :=
      [ [.NormalForest, .NormalForest, .NormalForest, .NormalForest, .NormalForest],
        [.NormalForest, .NormalForest, .NormalForest, .NormalForest, .NormalForest],
        [.NormalForest, .NormalForest, .Burned, .NormalForest, .NormalForest],
        [.NormalForest, .NormalForest, .NormalForest, .NormalForest, .NormalForest],
        [.NormalForest, .NormalForest, .NormalForest, .NormalForest, .NormalForest] ] }

/-- The scenario grid after a first update in which every neighbour of the centre caught
fire: the centre `Burned`, the ring around it `Burning`, the border `NormalForest`. -/
def forest5Ring : Grid :=
  { size := 5
    cells :=
      [ [.NormalForest, .NormalForest, .NormalForest, .NormalForest, .NormalForest],
        [.NormalForest, .Burning, .Burning, .Burning, .NormalForest],
        [.NormalForest, .Burning, .Burned, .Burning, .NormalForest],
        [.NormalForest, .Burning, .Burning, .Burning, .NormalForest],
        [.NormalForest, .NormalForest, .NormalForest, .NormalForest, .NormalForest] ] }

/-- The value of the local `num_water_cells` of `initializeGrid`: the number of iterations
of its loop is this value when positive and `0` otherwise. -/
def numWaterCells (size : Int) (water_ratio : ℚ) : Int :=
  truncToInt (f32 (f32 (wrapInt32 (size * size) : ℚ) * water_ratio))

/-- The position `(x, y)` that iteration `i` of the loop of `initializeGrid` draws from the
generator `s`: `x` from call `2 * i` of `rand()` and `y` from call `2 * i + 1`. -/
def drawnPos (size : Int) (s : Rand) (i : Nat) : Int × Int :=
  (Int.tmod ((s.out (2 * i) : Nat) : Int) size, Int.tmod ((s.out (2 * i + 1) : Nat) : Int) size)

/-- The number of `Water` cells of a cell array. -/
def countWater (cs : Cells) : Nat :=
  (cs.map (fun row => row.count CellType.Water)).sum

/-- Whether a fault is an exception that the program throws, which a caller can catch; an
out-of-range vector access is not: the program checks nothing and its behaviour is
undefined. -/
def Fault.isException : Fault → Bool
  | .LengthError => true
  | .OutOfRange => false

/-- The generator whose `n`-th call of `rand()` returns `n` (modulo `RAND_MAX + 1`). -/
def countRand : Rand :=
  { RAND_MAX := glibcRandMax, out := fun n => n % (glibcRandMax + 1) }

/-- The generator that returns `2 ^ 30 - 1` at every call, with the `RAND_MAX` of the GNU C
library. -/
def halfRand : Rand := constRand glibcRandMax 1073741823

/-- The eight offsets `(dx, dy)` of the Moore neighbourhood, `dx = -1, 0, 1` outer and
`dy = -1, 0, 1` inner, without `(0, 0)`. -/
def mooreOffsets : List (Int × Int) :=
  [(-1, -1), (-1, 0), (-1, 1), (0, -1), (0, 1), (1, -1), (1, 0), (1, 1)]

/-! ## Rounding to binary32 -/

theorem roundHalfEven_bounds (x : ℚ) :
    x - 1 / 2 ≤ (roundHalfEven x : ℚ) ∧ (roundHalfEven x : ℚ) ≤ x + 1 / 2 := by
  have h1 := Int.floor_le x
  have h2 := Int.lt_floor_add_one x
  unfold roundHalfEven
  split_ifs with ha hb hc
  · constructor <;> linarith
  · push_cast; constructor <;> linarith
  · push_neg at ha hb
    constructor <;> linarith
  · push_neg at ha hb
    push_cast; constructor <;> linarith

theorem roundHalfEven_intCast (n : Int) : roundHalfEven (n : ℚ) = n := by
  simp [roundHalfEven]

theorem roundHalfEven_mono {x y : ℚ} (h : x ≤ y) : roundHalfEven x ≤ roundHalfEven y := by
  by_contra hlt
  push_neg at hlt
  have h1 := (roundHalfEven_bounds x).2
  have h2 := (roundHalfEven_bounds y).1
  have h3 : (roundHalfEven y : ℚ) + 1 ≤ (roundHalfEven x : ℚ) := by exact_mod_cast hlt
  have hxy : x = y := le_antisymm h (by linarith)
  rw [hxy] at hlt
  exact lt_irrefl _ hlt

theorem f32Ulp_pos (q : ℚ) : 0 < f32Ulp q := by
  unfold f32Ulp
  positivity

theorem f32_zero : f32 0 = 0 := by
  simp [f32, roundHalfEven]

theorem f32_nonneg {q : ℚ} (h : 0 ≤ q) : 0 ≤ f32 q := by
  unfold f32
  have hu := f32Ulp_pos q
  have h0 : (0 : ℚ) ≤ q / f32Ulp q := div_nonneg h hu.le
  have := roundHalfEven_mono h0
  rw [show (0 : ℚ) = ((0 : Int) : ℚ) by norm_num, roundHalfEven_intCast] at this
  have h2 : (0 : ℚ) ≤ (roundHalfEven (q / f32Ulp q) : ℚ) := by exact_mod_cast this
  positivity

theorem f32_nonpos {q : ℚ} (h : q ≤ 0) : f32 q ≤ 0 := by
  unfold f32
  have hu := f32Ulp_pos q
  have h0 : q / f32Ulp q ≤ (0 : ℚ) := div_nonpos_of_nonpos_of_nonneg h hu.le
  have := roundHalfEven_mono h0
  rw [show (0 : ℚ) = ((0 : Int) : ℚ) by norm_num, roundHalfEven_intCast] at this
  have h2 : (roundHalfEven (q / f32Ulp q) : ℚ) ≤ 0 := by exact_mod_cast this
  exact mul_nonpos_of_nonpos_of_nonneg h2 hu.le

theorem f32Exp_ge (q : ℚ) : -126 ≤ f32Exp q := by
  unfold f32Exp
  split_ifs
  · exact le_rfl
  · exact le_max_right _ _

theorem abs_lt_zpow_f32Exp (q : ℚ) : |q| < (2 : ℚ) ^ (f32Exp q + 1) := by
  by_cases hq : q = 0
  · rw [hq, abs_zero]
    positivity
  have h := Int.lt_zpow_succ_log_self (b := 2) (by norm_num) |q|
  simp only [Nat.cast_ofNat] at h
  refine h.trans_le ?_
  apply zpow_le_zpow_right₀ (by norm_num)
  unfold f32Exp
  rw [if_neg hq]
  have := le_max_left (Int.log 2 |q|) (-126)
  omega

theorem zpow_f32Exp_le_abs {q : ℚ} (h : -126 < f32Exp q) : (2 : ℚ) ^ f32Exp q ≤ |q| := by
  have hq0 : q ≠ 0 := by
    rintro rfl
    simp [f32Exp] at h
  have hlog : f32Exp q = Int.log 2 |q| := by
    unfold f32Exp at h ⊢
    rw [if_neg hq0] at h ⊢
    rcases max_cases (Int.log 2 |q|) (-126) with ⟨h1, _⟩ | ⟨h1, _⟩
    · exact h1
    · rw [h1] at h; exact absurd h (lt_irrefl _)
  have hq : 0 < |q| := abs_pos.mpr hq0
  rw [hlog]
  have := Int.zpow_log_le_self (b := 2) (by norm_num) hq
  simpa using this

theorem f32Exp_mono {a b : ℚ} (h : |a| ≤ |b|) : f32Exp a ≤ f32Exp b := by
  by_cases ha : a = 0
  · rw [show f32Exp a = -126 by simp [f32Exp, ha]]
    exact f32Exp_ge b
  have hb : b ≠ 0 := by
    rintro rfl
    rw [abs_zero] at h
    exact ha (abs_eq_zero.mp (le_antisymm h (abs_nonneg a)))
  unfold f32Exp
  rw [if_neg ha, if_neg hb]
  exact max_le_max (Int.log_mono_right (abs_pos.mpr ha) h) le_rfl

/-- A value `m * 2 ^ k` with `|m| < 2 ^ 24` and `k >= -149` is a binary32 value: rounding
leaves it unchanged. -/
theorem f32_of_rep (m k : Int) (hm : |m| < 2 ^ 24) (hk : -149 ≤ k) :
    f32 ((m : ℚ) * (2 : ℚ) ^ k) = (m : ℚ) * (2 : ℚ) ^ k := by
  set q : ℚ := (m : ℚ) * (2 : ℚ) ^ k with hq
  have he1 := f32Exp_ge q
  have he2 : f32Exp q ≤ k + 23 := by
    by_contra hgt
    push_neg at hgt
    have hlo := zpow_f32Exp_le_abs (q := q) (by omega)
    have habs : |q| < (2 : ℚ) ^ (k + 24) := by
      rw [hq, abs_mul, abs_of_pos (zpow_pos (by norm_num : (0 : ℚ) < 2) k), zpow_add₀ (by norm_num),
        mul_comm ((2 : ℚ) ^ k)]
      apply mul_lt_mul_of_pos_right _ (zpow_pos (by norm_num) k)
      have h24 : (2 : ℚ) ^ (24 : Int) = 2 ^ (24 : Nat) := by norm_num
      rw [h24]
      exact_mod_cast hm
    have : (2 : ℚ) ^ (k + 24) ≤ (2 : ℚ) ^ f32Exp q :=
      zpow_le_zpow_right₀ (by norm_num) (by omega)
    linarith
  obtain ⟨d, hd⟩ : ∃ d : Nat, (d : Int) = k - (f32Exp q - 23) := ⟨(k - (f32Exp q - 23)).toNat, by omega⟩
  have hdiv : q / f32Ulp q = ((m * 2 ^ d : Int) : ℚ) := by
    unfold f32Ulp
    rw [hq, mul_div_assoc, ← zpow_sub₀ (by norm_num), ← hd]
    push_cast
    rw [zpow_natCast]
  unfold f32
  rw [hdiv, roundHalfEven_intCast, ← hdiv]
  exact div_mul_cancel₀ _ (f32Ulp_pos q).ne'

theorem f32_intCast {n : Int} (h : |n| < 2 ^ 24) : f32 (n : ℚ) = n := by
  have := f32_of_rep n 0 h (by norm_num)
  simpa using this

theorem f32_le_of_div_le {q : ℚ} {N : Int} (h : q / f32Ulp q ≤ (N : ℚ)) :
    f32 q ≤ (N : ℚ) * f32Ulp q := by
  unfold f32
  have := roundHalfEven_mono h
  rw [roundHalfEven_intCast] at this
  have h2 : (roundHalfEven (q / f32Ulp q) : ℚ) ≤ (N : ℚ) := by exact_mod_cast this
  exact mul_le_mul_of_nonneg_right h2 (f32Ulp_pos q).le

theorem f32_ge_of_le_div {q : ℚ} {N : Int} (h : (N : ℚ) ≤ q / f32Ulp q) :
    (N : ℚ) * f32Ulp q ≤ f32 q := by
  unfold f32
  have := roundHalfEven_mono h
  rw [roundHalfEven_intCast] at this
  have h2 : (N : ℚ) ≤ (roundHalfEven (q / f32Ulp q) : ℚ) := by exact_mod_cast this
  exact mul_le_mul_of_nonneg_right h2 (f32Ulp_pos q).le

theorem f32Ulp_mul_top (q : ℚ) : ((2 ^ 24 : Int) : ℚ) * f32Ulp q = (2 : ℚ) ^ (f32Exp q + 1) := by
  unfold f32Ulp
  have : f32Exp q + 1 = 24 + (f32Exp q - 23) := by ring
  rw [this, zpow_add₀ (by norm_num)]
  norm_num

theorem f32Ulp_mul_bot (q : ℚ) : ((2 ^ 23 : Int) : ℚ) * f32Ulp q = (2 : ℚ) ^ f32Exp q := by
  unfold f32Ulp
  have : f32Exp q = 23 + (f32Exp q - 23) := by ring
  conv_rhs => rw [this, zpow_add₀ (by norm_num : (2 : ℚ) ≠ 0)]
  norm_num

/-- The result of rounding stays in the closed binade of the argument. -/
theorem abs_f32_le (q : ℚ) : |f32 q| ≤ (2 : ℚ) ^ (f32Exp q + 1) := by
  have hu := f32Ulp_pos q
  have habs := abs_lt_zpow_f32Exp q
  rw [← f32Ulp_mul_top] at habs ⊢
  rw [abs_lt] at habs
  rw [abs_le]
  constructor
  · have h1 : ((-(2 ^ 24) : Int) : ℚ) ≤ q / f32Ulp q := by
      rw [le_div_iff₀ hu]
      push_cast at habs ⊢
      linarith [habs.1]
    have := f32_ge_of_le_div h1
    push_cast at this ⊢
    linarith
  · have h1 : q / f32Ulp q ≤ ((2 ^ 24 : Int) : ℚ) := by
      rw [div_le_iff₀ hu]
      exact habs.2.le
    exact f32_le_of_div_le h1

theorem f32_ge_of_pos {q : ℚ} (hq : 0 < q) (he : -126 < f32Exp q) :
    (2 : ℚ) ^ f32Exp q ≤ f32 q := by
  have hu := f32Ulp_pos q
  have hlo := zpow_f32Exp_le_abs he
  rw [abs_of_pos hq, ← f32Ulp_mul_bot] at hlo
  rw [← f32Ulp_mul_bot]
  apply f32_ge_of_le_div
  rw [le_div_iff₀ hu]
  exact hlo

theorem f32_le_of_neg {q : ℚ} (hq : q < 0) (he : -126 < f32Exp q) :
    f32 q ≤ -(2 : ℚ) ^ f32Exp q := by
  have hu := f32Ulp_pos q
  have hlo := zpow_f32Exp_le_abs he
  rw [abs_of_neg hq, ← f32Ulp_mul_bot] at hlo
  rw [← f32Ulp_mul_bot]
  have h1 : q / f32Ulp q ≤ ((-(2 ^ 23) : Int) : ℚ) := by
    rw [div_le_iff₀ hu]
    push_cast at hlo ⊢
    linarith
  have := f32_le_of_div_le h1
  push_cast at this ⊢
  linarith

/-- Rounding to binary32 is monotone. -/
theorem f32_mono {a b : ℚ} (h : a ≤ b) : f32 a ≤ f32 b := by
  rcases le_or_lt a 0 with ha | ha
  · rcases le_or_lt 0 b with hb | hb
    · exact (f32_nonpos ha).trans (f32_nonneg hb)
    · -- a ≤ b < 0
      have habs : |b| ≤ |a| := by
        rw [abs_of_neg hb, abs_of_nonpos ha]; linarith
      have he := f32Exp_mono habs
      rcases he.eq_or_lt with heq | hlt
      · have hu : f32Ulp a = f32Ulp b := by unfold f32Ulp; rw [heq]
        unfold f32
        rw [hu]
        have hub := f32Ulp_pos b
        have : roundHalfEven (a / f32Ulp b) ≤ roundHalfEven (b / f32Ulp b) :=
          roundHalfEven_mono (div_le_div_of_nonneg_right h hub.le)
        have h2 : (roundHalfEven (a / f32Ulp b) : ℚ) ≤ (roundHalfEven (b / f32Ulp b) : ℚ) := by
          exact_mod_cast this
        exact mul_le_mul_of_nonneg_right h2 hub.le
      · have ha' : a < 0 := lt_of_le_of_lt h hb
        have h1 := f32_le_of_neg ha' (lt_of_le_of_lt (f32Exp_ge b) hlt)
        have h2 := (abs_le.mp (abs_f32_le b)).1
        have h3 : (2 : ℚ) ^ (f32Exp b + 1) ≤ (2 : ℚ) ^ f32Exp a :=
          zpow_le_zpow_right₀ (by norm_num) (by omega)
        linarith
  · -- 0 < a ≤ b
    have hb : 0 < b := lt_of_lt_of_le ha h
    have habs : |a| ≤ |b| := by
      rw [abs_of_pos ha, abs_of_pos hb]; exact h
    have he := f32Exp_mono habs
    rcases he.eq_or_lt with heq | hlt
    · have hu : f32Ulp a = f32Ulp b := by unfold f32Ulp; rw [heq]
      unfold f32
      rw [hu]
      have hub := f32Ulp_pos b
      have : roundHalfEven (a / f32Ulp b) ≤ roundHalfEven (b / f32Ulp b) :=
        roundHalfEven_mono (div_le_div_of_nonneg_right h hub.le)
      have h2 : (roundHalfEven (a / f32Ulp b) : ℚ) ≤ (roundHalfEven (b / f32Ulp b) : ℚ) := by
        exact_mod_cast this
      exact mul_le_mul_of_nonneg_right h2 hub.le
    · have h1 := f32_ge_of_pos hb (lt_of_le_of_lt (f32Exp_ge a) hlt)
      have h2 := (abs_le.mp (abs_f32_le a)).2
      have h3 : (2 : ℚ) ^ (f32Exp a + 1) ≤ (2 : ℚ) ^ f32Exp b :=
        zpow_le_zpow_right₀ (by norm_num) (by omega)
      linarith

theorem f32Exp_eq {q : ℚ} {e : Int} (h1 : -126 ≤ e) (hlo : (2 : ℚ) ^ e ≤ |q|)
    (hhi : |q| < (2 : ℚ) ^ (e + 1)) : f32Exp q = e := by
  have hq : 0 < |q| := lt_of_lt_of_le (zpow_pos (by norm_num) e) hlo
  have hq0 : q ≠ 0 := abs_pos.mp hq
  have hlog : Int.log 2 |q| = e := by
    apply le_antisymm
    · have := (Int.lt_zpow_iff_log_lt (b := 2) (by norm_num) hq (x := e + 1)).mp
        (by simpa using hhi)
      omega
    · exact (Int.zpow_le_iff_le_log (b := 2) (by norm_num) hq).mp (by simpa using hlo)
  unfold f32Exp
  rw [if_neg hq0, hlog]
  exact max_eq_left h1

theorem roundHalfEven_eq_of_lt {x : ℚ} {n : Int} (h : |x - n| < 1 / 2) :
    roundHalfEven x = n := by
  have hb := roundHalfEven_bounds x
  rw [abs_lt] at h
  have h1 : (roundHalfEven x : ℚ) < (n : ℚ) + 1 := by linarith [hb.2, h.2]
  have h2 : (n : ℚ) - 1 < (roundHalfEven x : ℚ) := by linarith [hb.1, h.1]
  have h1' : roundHalfEven x < n + 1 := by exact_mod_cast h1
  have h2' : n - 1 < roundHalfEven x := by exact_mod_cast h2
  omega

/-- Evaluation of the rounding at a value whose binade is known. -/
theorem f32_eval {q : ℚ} {e n : Int} (h1 : -126 ≤ e) (hlo : (2 : ℚ) ^ e ≤ |q|)
    (hhi : |q| < (2 : ℚ) ^ (e + 1)) (hn : |q / (2 : ℚ) ^ (e - 23) - n| < 1 / 2) :
    f32 q = (n : ℚ) * (2 : ℚ) ^ (e - 23) := by
  unfold f32 f32Ulp
  rw [f32Exp_eq h1 hlo hhi, roundHalfEven_eq_of_lt hn]

theorem roundHalfEven_tie_even {n : Int} (h : n % 2 = 0) :
    roundHalfEven ((n : ℚ) + 1 / 2) = n := by
  have hf : ⌊(n : ℚ) + 1 / 2⌋ = n := by
    rw [Int.floor_eq_iff]
    constructor <;> linarith
  have h1 : ¬ ((n : ℚ) + 1 / 2 - (n : ℚ) < 1 / 2) := by
    rw [add_sub_cancel_left]
    exact lt_irrefl _
  have h2 : ¬ (1 / 2 < (n : ℚ) + 1 / 2 - (n : ℚ)) := by
    rw [add_sub_cancel_left]
    exact lt_irrefl _
  simp only [roundHalfEven, hf, h1, h2, h, if_false, if_true]

theorem f32_one : f32 1 = 1 := by
  have := f32_intCast (n := 1) (by norm_num)
  simpa using this

theorem f32_natCast {n : Nat} (h : n < 2 ^ 24) : f32 (n : ℚ) = n := by
  have := f32_intCast (n := (n : Int))
    (by rw [abs_of_nonneg (Int.ofNat_nonneg n)]; exact_mod_cast h)
  simpa using this

/-- Rounding does not cross a binary32 value above the argument. -/
theorem f32_le_of_le {q b : ℚ} (hb : f32 b = b) (h : q ≤ b) : f32 q ≤ b := by
  rw [← hb]
  exact f32_mono h

/-- Rounding does not cross a binary32 value below the argument. -/
theorem le_f32_of_le {q a : ℚ} (ha : f32 a = a) (h : a ≤ q) : a ≤ f32 q := by
  rw [← ha]
  exact f32_mono h

/-- In the range of `int` the conversion `static_cast<int>` of a non-negative value is its
floor. -/
theorem truncToInt_of_nonneg {q : ℚ} (h0 : 0 ≤ q) (h1 : q < 2147483648) :
    truncToInt q = ⌊q⌋ := by
  have hf0 : 0 ≤ ⌊q⌋ := Int.floor_nonneg.mpr h0
  have hf1 : ⌊q⌋ < 2147483648 := by
    have : (⌊q⌋ : ℚ) ≤ q := Int.floor_le q
    have h2 : (⌊q⌋ : ℚ) < ((2147483648 : Int) : ℚ) := by push_cast; linarith
    exact_mod_cast h2
  simp only [truncToInt, if_pos h0]
  rw [if_pos ⟨by omega, by omega⟩]

/-! ## Reading and writing cells -/

theorem Grid.WF.dim {g : Grid} (h : g.WF) : Dim g.cells g.size.toNat :=
  ⟨h.2.1, h.2.2⟩

theorem readCell_inRange {cs : Cells} {N : Nat} (h : Dim cs N) {y x : Int}
    (hy : 0 ≤ y) (hyN : y < N) (hx : 0 ≤ x) (hxN : x < N) :
    ∃ v, readCell cs y x = .ok v := by
  have hyl : y.toNat < cs.length := by rw [h.1]; omega
  have hrow : (cs[y.toNat]).length = N := h.2 _ (List.getElem_mem hyl)
  have hxl : x.toNat < (cs[y.toNat]).length := by rw [hrow]; omega
  refine ⟨(cs[y.toNat])[x.toNat], ?_⟩
  simp [readCell, hy, hx, List.getElem?_eq_getElem hyl, List.getElem?_eq_getElem hxl]

theorem readCell_ok_range {cs : Cells} {N : Nat} (h : Dim cs N) {y x : Int} {v : CellType}
    (hr : readCell cs y x = .ok v) : 0 ≤ y ∧ y < N ∧ 0 ≤ x ∧ x < N := by
  unfold readCell at hr
  split_ifs at hr with h0
  cases hrow : cs[y.toNat]? with
  | none => simp [hrow] at hr
  | some row =>
    simp only [hrow] at hr
    cases hv : row[x.toNat]? with
    | none => simp [hv] at hr
    | some v' =>
      obtain ⟨hyl, hyeq⟩ := List.getElem?_eq_some_iff.mp hrow
      obtain ⟨hxl, -⟩ := List.getElem?_eq_some_iff.mp hv
      have hlen : row.length = N := h.2 row (hyeq ▸ List.getElem_mem hyl)
      have := h.1
      omega

theorem writeCell_spec {cs : Cells} {N : Nat} (h : Dim cs N) {y x : Int} (v : CellType)
    (hy : 0 ≤ y) (hyN : y < N) (hx : 0 ≤ x) (hxN : x < N) :
    ∃ cs', writeCell cs y x v = .ok cs' ∧ Dim cs' N ∧
      ∀ y' x', readCell cs' y' x' = if y' = y ∧ x' = x then .ok v else readCell cs y' x' := by
  have hyl : y.toNat < cs.length := by rw [h.1]; omega
  have hrow : (cs[y.toNat]).length = N := h.2 _ (List.getElem_mem hyl)
  have hxl : x.toNat < (cs[y.toNat]).length := by rw [hrow]; omega
  refine ⟨cs.set y.toNat ((cs[y.toNat]).set x.toNat v), ?_, ⟨?_, ?_⟩, ?_⟩
  · simp [writeCell, hy, hx, List.getElem?_eq_getElem hyl, hxl]
  · simpa using h.1
  · intro row hrowmem
    rcases List.mem_or_eq_of_mem_set hrowmem with hm | rfl
    · exact h.2 row hm
    · simpa using hrow
  · intro y' x'
    unfold readCell
    by_cases h0 : 0 ≤ y' ∧ 0 ≤ x'
    · obtain ⟨hy0, hx0⟩ := h0
      by_cases hyy : y' = y
      · subst hyy
        by_cases hxx : x' = x
        · subst hxx
          simp [hy0, hx0, List.getElem?_set, hyl, hxl]
        · have hne : x.toNat ≠ x'.toNat := by omega
          simp [hy0, hx0, hxx, List.getElem?_set, hyl, hne, List.getElem?_eq_getElem hyl]
      · have hne : y.toNat ≠ y'.toNat := by omega
        simp [hy0, hx0, hyy, List.getElem?_set, hne]
    · have hne : ¬ (y' = y ∧ x' = x) := by
        rintro ⟨rfl, rfl⟩; exact h0 ⟨hy, hx⟩
      simp [h0, hne]

/-! ## Neighbours -/

theorem mem_neighborStep {size x y dx dy : Int} {acc : List (Int × Int)} {nb : Int × Int}
    (h : nb ∈ neighborStep size x y dx acc dy) :
    nb ∈ acc ∨ (nb = (x + dx, y + dy) ∧ ¬ (dx = 0 ∧ dy = 0) ∧
      0 ≤ x + dx ∧ x + dx < size ∧ 0 ≤ y + dy ∧ y + dy < size) := by
  simp only [neighborStep] at h
  split_ifs at h with h1 h2
  · exact Or.inl h
  · rcases List.mem_append.mp h with hm | hm
    · exact Or.inl hm
    · right
      simp only [List.mem_singleton] at hm
      exact ⟨hm, h1, h2.1, h2.2.1, h2.2.2.1, h2.2.2.2⟩
  · exact Or.inl h

theorem getNeighbors_inRange {g : Grid} {x y : Int} {nb : Int × Int}
    (h : nb ∈ getNeighbors g x y) :
    0 ≤ nb.1 ∧ nb.1 < g.size ∧ 0 ≤ nb.2 ∧ nb.2 < g.size := by
  simp only [getNeighbors, List.foldl] at h
  repeat
    rcases mem_neighborStep h with h | ⟨rfl, -, h1, h2, h3, h4⟩
    on_goal 2 => exact ⟨h1, h2, h3, h4⟩
  simp at h

/-! ## The random stream -/

theorem Rand.drop_zero (s : Rand) : s.drop 0 = s := rfl

theorem Rand.drop_drop (s : Rand) (a b : Nat) : (s.drop a).drop b = s.drop (a + b) := by
  simp only [Rand.drop]
  congr 1
  funext n
  congr 1
  omega

theorem randUnit_snd (s : Rand) : (randUnit s).2 = s.drop 1 := rfl

theorem randUnit_nonneg (s : Rand) : 0 ≤ (randUnit s).1 := by
  unfold randUnit
  exact f32_nonneg (div_nonneg (f32_nonneg (Nat.cast_nonneg _)) (f32_nonneg (Nat.cast_nonneg _)))

theorem randUnit_le_one {s : Rand} (h : s.Valid) : (randUnit s).1 ≤ 1 := by
  unfold randUnit rand
  have hk : f32 ((s.out 0 : Nat) : ℚ) ≤ f32 (s.RAND_MAX : ℚ) :=
    f32_mono (by exact_mod_cast h.2 0)
  have hM : 0 ≤ f32 (s.RAND_MAX : ℚ) := f32_nonneg (Nat.cast_nonneg _)
  have hq : f32 ((s.out 0 : Nat) : ℚ) / f32 (s.RAND_MAX : ℚ) ≤ 1 := div_le_one_of_le₀ hk hM
  have := f32_mono hq
  rwa [f32_one] at this

theorem Rand.Valid.drop {s : Rand} (h : s.Valid) (k : Nat) : (s.drop k).Valid :=
  ⟨h.1, fun n => h.2 (n + k)⟩

/-! ## One cell -/

theorem spreadLoop_ok (g : Grid) (x y : Int) (current : CellType) (p w_speed w_direction : ℚ)
    (hwf : g.WF) :
    ∀ (nbs : List (Int × Int)) (s : Rand),
      (∀ nb ∈ nbs, 0 ≤ nb.1 ∧ nb.1 < g.size ∧ 0 ≤ nb.2 ∧ nb.2 < g.size) →
      ∃ b k, spreadLoop g x y current p w_speed w_direction nbs s = .ok (b, s.drop k) := by
  intro nbs
  induction nbs with
  | nil => intro s _; exact ⟨false, 0, rfl⟩
  | cons nb rest ih =>
    intro s hin
    obtain ⟨h1, h2, h3, h4⟩ := hin nb (List.mem_cons_self _ _)
    have hrest : ∀ nb' ∈ rest, 0 ≤ nb'.1 ∧ nb'.1 < g.size ∧ 0 ≤ nb'.2 ∧ nb'.2 < g.size :=
      fun nb' hm => hin nb' (List.mem_cons_of_mem _ hm)
    obtain ⟨v, hv⟩ := readCell_inRange hwf.dim h3 (by have := hwf.1; omega) h1
      (by have := hwf.1; omega)
    simp only [spreadLoop, hv]
    split_ifs with hb hlt
    · exact ⟨true, 1, rfl⟩
    · obtain ⟨b, k, hk⟩ := ih (randUnit s).2 hrest
      refine ⟨b, 1 + k, ?_⟩
      rw [hk, randUnit_snd, Rand.drop_drop]
    · exact ih s hrest

theorem spreadLoop_p_zero (g : Grid) (x y : Int) (current : CellType) (w_speed w_direction : ℚ)
    (hwf : g.WF) :
    ∀ (nbs : List (Int × Int)) (s : Rand),
      (∀ nb ∈ nbs, 0 ≤ nb.1 ∧ nb.1 < g.size ∧ 0 ≤ nb.2 ∧ nb.2 < g.size) →
      ∃ k, spreadLoop g x y current 0 w_speed w_direction nbs s = .ok (false, s.drop k) := by
  intro nbs
  induction nbs with
  | nil => intro s _; exact ⟨0, rfl⟩
  | cons nb rest ih =>
    intro s hin
    obtain ⟨h1, h2, h3, h4⟩ := hin nb (List.mem_cons_self _ _)
    have hrest : ∀ nb' ∈ rest, 0 ≤ nb'.1 ∧ nb'.1 < g.size ∧ 0 ≤ nb'.2 ∧ nb'.2 < g.size :=
      fun nb' hm => hin nb' (List.mem_cons_of_mem _ hm)
    obtain ⟨v, hv⟩ := readCell_inRange hwf.dim h3 (by have := hwf.1; omega) h1
      (by have := hwf.1; omega)
    have hnot : ¬ (randUnit s).1 < 0 := not_lt.mpr (randUnit_nonneg s)
    simp only [spreadLoop, hv, zero_mul, f32_zero, hnot, if_false]
    split_ifs with hb
    · obtain ⟨k, hk⟩ := ih (randUnit s).2 hrest
      refine ⟨1 + k, ?_⟩
      rw [hk, randUnit_snd, Rand.drop_drop]
    · exact ih s hrest

theorem spreadLoop_congr (g1 g2 : Grid) (x y : Int) (current : CellType)
    (p w_speed w_direction : ℚ) :
    ∀ (nbs : List (Int × Int)) (s : Rand),
      (∀ nb ∈ nbs, readCell g1.cells nb.2 nb.1 = readCell g2.cells nb.2 nb.1) →
      spreadLoop g1 x y current p w_speed w_direction nbs s =
        spreadLoop g2 x y current p w_speed w_direction nbs s := by
  intro nbs
  induction nbs with
  | nil => intro s _; rfl
  | cons nb rest ih =>
    intro s hag
    have hrest : ∀ nb' ∈ rest, readCell g1.cells nb'.2 nb'.1 = readCell g2.cells nb'.2 nb'.1 :=
      fun nb' hm => hag nb' (List.mem_cons_of_mem _ hm)
    simp only [spreadLoop, hag nb (List.mem_cons_self _ _), ih _ hrest]

theorem updateCell_burning {g : Grid} {x y : Int} (p pstart w_speed w_direction : ℚ) (s : Rand)
    (h : readCell g.cells y x = .ok CellType.Burning) :
    updateCell g x y p pstart w_speed w_direction s = .ok (CellType.Burned, s) := by
  simp [updateCell, h]

theorem updateCell_absorbing {g : Grid} {x y : Int} {current : CellType}
    (p pstart w_speed w_direction : ℚ) (s : Rand)
    (h : readCell g.cells y x = .ok current)
    (hc : current = CellType.Water ∨ current = CellType.Burned) :
    updateCell g x y p pstart w_speed w_direction s = .ok (current, s) := by
  rcases hc with rfl | rfl <;> simp [updateCell, h]

theorem updateCell_ok {g : Grid} (hwf : g.WF) {x y : Int} (p pstart w_speed w_direction : ℚ)
    (s : Rand) (hx : 0 ≤ x) (hxN : x < g.size) (hy : 0 ≤ y) (hyN : y < g.size) :
    ∃ c k, updateCell g x y p pstart w_speed w_direction s = .ok (c, s.drop k) := by
  obtain ⟨cur, hcur⟩ := readCell_inRange hwf.dim hy (by have := hwf.1; omega) hx
    (by have := hwf.1; omega)
  obtain ⟨b, k, hk⟩ := spreadLoop_ok g x y cur p w_speed w_direction hwf (getNeighbors g x y) s
    (fun nb hm => getNeighbors_inRange hm)
  simp only [updateCell, hcur, hk]
  split_ifs with h1 h2
  · exact ⟨_, 0, rfl⟩
  · exact ⟨_, 0, rfl⟩
  · cases b
    · simp only [randUnit_snd, Rand.drop_drop]
      split_ifs
      · exact ⟨_, _, rfl⟩
      · exact ⟨_, _, rfl⟩
    · exact ⟨_, _, rfl⟩

theorem updateCell_p_zero {g : Grid} (hwf : g.WF) {x y : Int} {current : CellType}
    (w_speed w_direction : ℚ) (s : Rand)
    (h : readCell g.cells y x = .ok current) (hnb : current ≠ CellType.Burning) :
    ∃ k, updateCell g x y 0 0 w_speed w_direction s = .ok (current, s.drop k) := by
  obtain ⟨k, hk⟩ := spreadLoop_p_zero g x y current w_speed w_direction hwf (getNeighbors g x y) s
    (fun nb hm => getNeighbors_inRange hm)
  have hnot : ∀ t : Rand, ¬ (randUnit t).1 < 0 := fun t => not_lt.mpr (randUnit_nonneg t)
  simp only [updateCell, h, hk, hnb, if_false, hnot, randUnit_snd, Rand.drop_drop]
  split_ifs
  · exact ⟨0, rfl⟩
  · exact ⟨_, rfl⟩

theorem updateCell_congr {g1 g2 : Grid} {x y : Int} (p pstart w_speed w_direction : ℚ)
    (s : Rand) (hsize : g2.size = g1.size)
    (hc : readCell g2.cells y x = readCell g1.cells y x)
    (hn : ∀ nb ∈ getNeighbors g1 x y,
      readCell g2.cells nb.2 nb.1 = readCell g1.cells nb.2 nb.1) :
    updateCell g2 x y p pstart w_speed w_direction s =
      updateCell g1 x y p pstart w_speed w_direction s := by
  have hnb : getNeighbors g2 x y = getNeighbors g1 x y := by
    simp only [getNeighbors, hsize]
  simp only [updateCell, hc, hnb,
    spreadLoop_congr g2 g1 x y _ p w_speed w_direction (getNeighbors g1 x y) _ hn]

/-! ## The sweep of `update` -/

theorem updateInner_spec {g : Grid} (hwf : g.WF) (p pstart w_speed w_direction : ℚ) {y : Int}
    (hy : 0 ≤ y) (hyN : y < g.size) :
    ∀ (n : Nat) (x0 : Int) (nc : Cells) (s : Rand),
      Dim nc g.size.toNat → 0 ≤ x0 → x0 + n ≤ g.size →
      ∃ nc' k, updateInner g p pstart w_speed w_direction y n x0 nc s = .ok (nc', s.drop k) ∧
        Dim nc' g.size.toNat ∧
        (∀ y' x', ¬ (y' = y ∧ x0 ≤ x' ∧ x' < x0 + n) → readCell nc' y' x' = readCell nc y' x') ∧
        (∀ x', x0 ≤ x' → x' < x0 + n →
          ∃ ncm j c s2,
            updateInner g p pstart w_speed w_direction y (x' - x0).toNat x0 nc s =
              .ok (ncm, s.drop j) ∧
            updateCell g x' y p pstart w_speed w_direction (s.drop j) = .ok (c, s2) ∧
            readCell nc' y x' = .ok c) := by
  intro n
  induction n with
  | zero =>
    intro x0 nc s hd _ _
    refine ⟨nc, 0, rfl, hd, fun _ _ _ => rfl, ?_⟩
    intro x' h1 h2
    simp at h2
    omega
  | succ n ih =>
    intro x0 nc s hd hx0 hxn
    have hsz := hwf.1
    have hx0N : x0 < g.size := by push_cast at hxn; omega
    obtain ⟨c, k1, hc⟩ := updateCell_ok hwf p pstart w_speed w_direction s hx0 hx0N hy hyN
    obtain ⟨nc1, hw, hd1, hr1⟩ := writeCell_spec hd c hy (by omega) hx0 (by omega)
    obtain ⟨nc', k2, hrun, hd', hframe, hval⟩ := ih (x0 + 1) nc1 (s.drop k1) hd1 (by omega)
      (by push_cast at hxn; omega)
    refine ⟨nc', k1 + k2, ?_, hd', ?_, ?_⟩
    · simp only [updateInner, hc, hw, hrun, Rand.drop_drop]
    · intro y' x' hnot
      rw [hframe y' x' (by push_cast at hnot; omega), hr1 y' x']
      have : ¬ (y' = y ∧ x' = x0) := by push_cast at hnot; omega
      simp [this]
    · intro x' h1 h2
      by_cases hx' : x' = x0
      · subst hx'
        refine ⟨nc, 0, c, s.drop k1, ?_, hc, ?_⟩
        · simp [updateInner, Rand.drop_zero]
        · rw [hframe y x' (by omega), hr1 y x']
          simp
      · obtain ⟨ncm, j, c', s2, hpre, hcell, hread⟩ := hval x' (by omega)
          (by push_cast at h2; omega)
        rw [Rand.drop_drop] at hpre hcell
        refine ⟨ncm, k1 + j, c', s2, ?_, hcell, hread⟩
        have hstep : (x' - x0).toNat = (x' - (x0 + 1)).toNat + 1 := by omega
        rw [hstep]
        simp only [updateInner, hc, hw, hpre]

theorem updateOuter_spec {g : Grid} (hwf : g.WF) (p pstart w_speed w_direction : ℚ) :
    ∀ (n : Nat) (y0 : Int) (nc : Cells) (s : Rand),
      Dim nc g.size.toNat → 0 ≤ y0 → y0 + n ≤ g.size →
      ∃ nc' k, updateOuter g p pstart w_speed w_direction n y0 nc s = .ok (nc', s.drop k) ∧
        Dim nc' g.size.toNat ∧
        (∀ y' x', ¬ (y0 ≤ y' ∧ y' < y0 + n) → readCell nc' y' x' = readCell nc y' x') ∧
        (∀ y' x', y0 ≤ y' → y' < y0 + n → 0 ≤ x' → x' < g.size →
          ∃ nca sa ncm j c s2,
            updateOuter g p pstart w_speed w_direction (y' - y0).toNat y0 nc s = .ok (nca, sa) ∧
            updateInner g p pstart w_speed w_direction y' x'.toNat 0 nca sa =
              .ok (ncm, s.drop j) ∧
            updateCell g x' y' p pstart w_speed w_direction (s.drop j) = .ok (c, s2) ∧
            readCell nc' y' x' = .ok c) := by
  intro n
  induction n with
  | zero =>
    intro y0 nc s hd _ _
    refine ⟨nc, 0, rfl, hd, fun _ _ _ => rfl, ?_⟩
    intro y' x' h1 h2
    simp at h2
    omega
  | succ n ih =>
    intro y0 nc s hd hy0 hyn
    have hsz := hwf.1
    have hy0N : y0 < g.size := by push_cast at hyn; omega
    obtain ⟨nc1, k1, hrow, hd1, hframe1, hval1⟩ :=
      updateInner_spec hwf p pstart w_speed w_direction hy0 hy0N g.size.toNat 0 nc s hd
        le_rfl (by omega)
    obtain ⟨nc', k2, hrun, hd', hframe, hval⟩ := ih (y0 + 1) nc1 (s.drop k1) hd1 (by omega)
      (by push_cast at hyn; omega)
    refine ⟨nc', k1 + k2, ?_, hd', ?_, ?_⟩
    · simp only [updateOuter, hrow, hrun, Rand.drop_drop]
    · intro y' x' hnot
      rw [hframe y' x' (by push_cast at hnot; omega),
        hframe1 y' x' (by push_cast at hnot; omega)]
    · intro y' x' h1 h2 hx hxN
      by_cases hy' : y' = y0
      · subst hy'
        obtain ⟨ncm, j, c, s2, hpre, hcell, hread⟩ := hval1 x' hx (by omega)
        refine ⟨nc, s, ncm, j, c, s2, ?_, ?_, hcell, ?_⟩
        · simp [updateOuter]
        · simpa using hpre
        · rw [hframe y' x' (by omega), hread]
      · obtain ⟨nca, sa, ncm, j, c, s2, hpre, hin, hcell, hread⟩ := hval y' x' (by omega)
          (by push_cast at h2; omega) hx hxN
        rw [Rand.drop_drop] at hin hcell
        refine ⟨nca, sa, ncm, k1 + j, c, s2, ?_, hin, hcell, hread⟩
        have hstep : (y' - y0).toNat = (y' - (y0 + 1)).toNat + 1 := by omega
        rw [hstep]
        simp only [updateOuter, hrow, hpre]

/-- What one `update` does on a well-formed grid: it returns a well-formed grid of the same
size, and each cell of it is the result of `updateCell` on the old grid, called with the
generator state that the sweep has reached at that cell. -/
theorem update_spec {g : Grid} (hwf : g.WF) (p pstart w_speed w_direction : ℚ) (s : Rand) :
    ∃ g' k, update g p pstart w_speed w_direction s = .ok (g', s.drop k) ∧
      g'.WF ∧ g'.size = g.size ∧
      ∀ x y, 0 ≤ x → x < g.size → 0 ≤ y → y < g.size →
        ∃ j c s2, randAt g p pstart w_speed w_direction s x y = .ok (s.drop j) ∧
          updateCell g x y p pstart w_speed w_direction (s.drop j) = .ok (c, s2) ∧
          getCell g' x y = .ok c := by
  have hsz := hwf.1
  obtain ⟨nc', k, hrun, hd', -, hval⟩ :=
    updateOuter_spec hwf p pstart w_speed w_direction g.size.toNat 0 g.cells s hwf.dim
      le_rfl (by omega)
  refine ⟨{ g with cells := nc' }, k, ?_, ⟨hsz, hd'.1, hd'.2⟩, rfl, ?_⟩
  · simp only [update, hrun]
  · intro x y hx hxN hy hyN
    obtain ⟨nca, sa, ncm, j, c, s2, hpre, hin, hcell, hread⟩ := hval y x hy (by omega) hx hxN
    refine ⟨j, c, s2, ?_, hcell, hread⟩
    simp only [sub_zero] at hpre
    simp only [randAt, hpre, hin]

theorem getCell_ok_range {g : Grid} (hwf : g.WF) {x y : Int} {v : CellType}
    (h : getCell g x y = .ok v) : 0 ≤ x ∧ x < g.size ∧ 0 ≤ y ∧ y < g.size := by
  have := readCell_ok_range hwf.dim h
  have hsz := hwf.1
  omega

theorem updateN_succ_ok {p pstart w_speed w_direction : ℚ} {g g1 : Grid} {s s1 : Rand}
    (n : Nat) (h : update g p pstart w_speed w_direction s = .ok (g1, s1)) :
    updateN p pstart w_speed w_direction (n + 1) g s =
      updateN p pstart w_speed w_direction n g1 s1 := by
  simp only [updateN, h]

/-- Successive updates: a reflexive and transitive relation that every single `update` of a
well-formed grid establishes holds between the first and the last grid. -/
theorem updateN_induct (p pstart w_speed w_direction : ℚ) (R : Grid → Grid → Prop)
    (hrefl : ∀ g, R g g) (htrans : ∀ g1 g2 g3, R g1 g2 → R g2 g3 → R g1 g3)
    (hstep : ∀ (g : Grid) (s : Rand), g.WF →
      ∃ g' k, update g p pstart w_speed w_direction s = .ok (g', s.drop k) ∧
        g'.WF ∧ g'.size = g.size ∧ R g g') :
    ∀ (n : Nat) (g : Grid) (s : Rand), g.WF →
      ∃ g' k, updateN p pstart w_speed w_direction n g s = .ok (g', s.drop k) ∧
        g'.WF ∧ g'.size = g.size ∧ R g g' := by
  intro n
  induction n with
  | zero => intro g s hwf; exact ⟨g, 0, rfl, hwf, rfl, hrefl g⟩
  | succ n ih =>
    intro g s hwf
    obtain ⟨g1, k1, h1, hwf1, hs1, hR1⟩ := hstep g s hwf
    obtain ⟨g2, k2, h2, hwf2, hs2, hR2⟩ := ih g1 (s.drop k1) hwf1
    refine ⟨g2, k1 + k2, ?_, hwf2, hs2.trans hs1, htrans _ _ _ hR1 hR2⟩
    simp only [updateN, h1, h2, Rand.drop_drop]

theorem update_absorb_step {g : Grid} (hwf : g.WF) (p pstart w_speed w_direction : ℚ)
    (s : Rand) :
    ∃ g' k, update g p pstart w_speed w_direction s = .ok (g', s.drop k) ∧
      g'.WF ∧ g'.size = g.size ∧
      ∀ x y v, v = CellType.Water ∨ v = CellType.Burned →
        getCell g x y = .ok v → getCell g' x y = .ok v := by
  obtain ⟨g', k, hrun, hwf', hsize, hcells⟩ := update_spec hwf p pstart w_speed w_direction s
  refine ⟨g', k, hrun, hwf', hsize, ?_⟩
  intro x y v hv hget
  obtain ⟨hx, hxN, hy, hyN⟩ := getCell_ok_range hwf hget
  obtain ⟨sm, c, s2, -, hcell, hread⟩ := hcells x y hx hxN hy hyN
  rw [updateCell_absorbing p pstart w_speed w_direction _ hget hv] at hcell
  simp only [Except.ok.injEq, Prod.mk.injEq] at hcell
  rw [hread, hcell.1]

theorem update_burning_step {g : Grid} (hwf : g.WF) (p pstart w_speed w_direction : ℚ)
    (s : Rand) :
    ∃ g' k, update g p pstart w_speed w_direction s = .ok (g', s.drop k) ∧
      g'.WF ∧ g'.size = g.size ∧
      ∀ x y, getCell g x y = .ok CellType.Burning → getCell g' x y = .ok CellType.Burned := by
  obtain ⟨g', k, hrun, hwf', hsize, hcells⟩ := update_spec hwf p pstart w_speed w_direction s
  refine ⟨g', k, hrun, hwf', hsize, ?_⟩
  intro x y hget
  obtain ⟨hx, hxN, hy, hyN⟩ := getCell_ok_range hwf hget
  obtain ⟨sm, c, s2, -, hcell, hread⟩ := hcells x y hx hxN hy hyN
  rw [updateCell_burning p pstart w_speed w_direction _ hget] at hcell
  simp only [Except.ok.injEq, Prod.mk.injEq] at hcell
  rw [hread, hcell.1]

theorem update_p_zero_step {g : Grid} (hwf : g.WF) (w_speed w_direction : ℚ) (s : Rand) :
    ∃ g' k, update g 0 0 w_speed w_direction s = .ok (g', s.drop k) ∧
      g'.WF ∧ g'.size = g.size ∧
      ∀ x y v, v ≠ CellType.Burning → getCell g x y = .ok v → getCell g' x y = .ok v := by
  obtain ⟨g', k, hrun, hwf', hsize, hcells⟩ := update_spec hwf 0 0 w_speed w_direction s
  refine ⟨g', k, hrun, hwf', hsize, ?_⟩
  intro x y v hv hget
  obtain ⟨hx, hxN, hy, hyN⟩ := getCell_ok_range hwf hget
  obtain ⟨sm, c, s2, -, hcell, hread⟩ := hcells x y hx hxN hy hyN
  obtain ⟨k', hk'⟩ := updateCell_p_zero hwf w_speed w_direction (s.drop sm) hget hv
  rw [hk'] at hcell
  simp only [Except.ok.injEq, Prod.mk.injEq] at hcell
  rw [hread, hcell.1]

/-! ## Absorption, one-tick burn, no spread -/

/-- C1 (absorption).  On every well-formed `N × N` grid, for every parameter tuple and every
stream of random draws, `update` returns a grid in which every cell that was `Water` is
`Water` and every cell that was `Burned` is `Burned`; and the same holds for the grid
returned by any number `n` of successive updates. -/
theorem absorption (g : Grid) (hwf : g.WF) (p pstart w_speed w_direction : ℚ) (s : Rand) :
    (∃ g' s', update g p pstart w_speed w_direction s = .ok (g', s') ∧
      ∀ x y, (getCell g x y = .ok CellType.Water → getCell g' x y = .ok CellType.Water) ∧
        (getCell g x y = .ok CellType.Burned → getCell g' x y = .ok CellType.Burned)) ∧
    (∀ n : Nat, ∃ g' s', updateN p pstart w_speed w_direction n g s = .ok (g', s') ∧
      ∀ x y, (getCell g x y = .ok CellType.Water → getCell g' x y = .ok CellType.Water) ∧
        (getCell g x y = .ok CellType.Burned → getCell g' x y = .ok CellType.Burned)) := by
  constructor
  · obtain ⟨g', k, hrun, -, -, h⟩ := update_absorb_step hwf p pstart w_speed w_direction s
    exact ⟨g', _, hrun, fun x y => ⟨h x y _ (Or.inl rfl), h x y _ (Or.inr rfl)⟩⟩
  · intro n
    obtain ⟨g', k, hrun, -, -, h⟩ :=
      updateN_induct p pstart w_speed w_direction
        (fun g1 g2 => ∀ x y v, v = CellType.Water ∨ v = CellType.Burned →
          getCell g1 x y = .ok v → getCell g2 x y = .ok v)
        (fun _ _ _ _ _ h => h)
        (fun _ _ _ h12 h23 x y v hv h1 => h23 x y v hv (h12 x y v hv h1))
        (fun g0 s0 hwf0 => update_absorb_step hwf0 p pstart w_speed w_direction s0)
        n g s hwf
    exact ⟨g', _, hrun, fun x y => ⟨h x y _ (Or.inl rfl), h x y _ (Or.inr rfl)⟩⟩

/-- C2 (one-tick burn).  On every well-formed grid, for every parameter tuple and every
stream of random draws, `update` returns a grid in which every cell that was `Burning` is
`Burned`. -/
theorem oneTickBurn (g : Grid) (hwf : g.WF) (p pstart w_speed w_direction : ℚ) (s : Rand) :
    ∃ g' s', update g p pstart w_speed w_direction s = .ok (g', s') ∧
      ∀ x y, getCell g x y = .ok CellType.Burning → getCell g' x y = .ok CellType.Burned := by
  obtain ⟨g', k, hrun, -, -, h⟩ := update_burning_step hwf p pstart w_speed w_direction s
  exact ⟨g', _, hrun, h⟩

/-- C4 (no spread).  With `p = 0` and `pstart = 0`, on every well-formed grid, for every wind
and every stream of random draws, any number `n` of successive updates returns a grid in
which every cell that was not `Burning` at the start has the state it had at the start, and
(for `n >= 1`) every cell that was `Burning` at the start is `Burned`. -/
theorem noSpread (g : Grid) (hwf : g.WF) (w_speed w_direction : ℚ) (s : Rand) (n : Nat) :
    ∃ g' s', updateN 0 0 w_speed w_direction n g s = .ok (g', s') ∧
      (∀ x y v, v ≠ CellType.Burning → getCell g x y = .ok v → getCell g' x y = .ok v) ∧
      (1 ≤ n → ∀ x y, getCell g x y = .ok CellType.Burning →
        getCell g' x y = .ok CellType.Burned) := by
  have key := updateN_induct 0 0 w_speed w_direction
    (fun g1 g2 => ∀ x y v, v ≠ CellType.Burning →
      getCell g1 x y = .ok v → getCell g2 x y = .ok v)
    (fun _ _ _ _ _ h => h)
    (fun _ _ _ h12 h23 x y v hv h1 => h23 x y v hv (h12 x y v hv h1))
    (fun g0 s0 hwf0 => update_p_zero_step hwf0 w_speed w_direction s0)
  obtain ⟨g', k, hrun, -, -, h⟩ := key n g s hwf
  refine ⟨g', _, hrun, h, ?_⟩
  intro hn x y hget
  obtain ⟨m, rfl⟩ : ∃ m, n = m + 1 := ⟨n - 1, by omega⟩
  obtain ⟨g1, k1, hrun1, hwf1, -, hb⟩ := update_burning_step hwf 0 0 w_speed w_direction s
  obtain ⟨g2, k2, hrun2, -, -, h2⟩ := key m g1 (s.drop k1) hwf1
  simp only [updateN, hrun1, hrun2, Except.ok.injEq, Prod.mk.injEq] at hrun
  rw [← hrun.1]
  exact h2 x y _ (by decide) (hb x y hget)

/-! ## Draws equal to `RAND_MAX` -/

theorem maxRand_drop (k : Nat) : maxRand.drop k = maxRand := rfl

/-- The conversion of `RAND_MAX = 2147483647` to `float` rounds up to `2 ^ 31`. -/
theorem f32_glibcRandMax : f32 (2147483647 : ℚ) = 2147483648 := by
  have := f32_eval (q := 2147483647) (e := 30) (n := 16777216) (by norm_num)
    (by norm_num [abs_of_pos]) (by norm_num [abs_of_pos]) (by norm_num [abs_lt])
  rw [this]
  norm_num

theorem randUnit_maxRand : randUnit maxRand = (1, maxRand) := by
  have h : (randUnit maxRand).1 = 1 := by
    simp only [randUnit, rand, maxRand, constRand, glibcRandMax, Rand.drop, Nat.cast_ofNat,
      f32_glibcRandMax]
    norm_num [f32_one]
  exact Prod.ext h rfl

theorem maxRand_valid : maxRand.Valid :=
  ⟨by decide, fun _ => le_rfl⟩

/-- One `update` with the generator `maxRand`, computed cell by cell on a reference grid
`ref` that has the same cells as `g`. -/
theorem update_maxRand {g ref : Grid} (hwf : g.WF) (hsize : ref.size = g.size)
    (hag : ∀ x y, 0 ≤ x → x < g.size → 0 ≤ y → y < g.size → getCell ref x y = getCell g x y)
    (p pstart w_speed w_direction : ℚ) :
    ∃ g', update g p pstart w_speed w_direction maxRand = .ok (g', maxRand) ∧
      g'.WF ∧ g'.size = g.size ∧
      ∀ x y c s2, 0 ≤ x → x < g.size → 0 ≤ y → y < g.size →
        updateCell ref x y p pstart w_speed w_direction maxRand = .ok (c, s2) →
        getCell g' x y = .ok c := by
  obtain ⟨g', k, hrun, hwf', hsz, hcells⟩ :=
    update_spec hwf p pstart w_speed w_direction maxRand
  refine ⟨g', hrun, hwf', hsz, ?_⟩
  intro x y c s2 hx hxN hy hyN href
  obtain ⟨j, c', s2', -, hcell, hread⟩ := hcells x y hx hxN hy hyN
  rw [maxRand_drop] at hcell
  have hcongr := @updateCell_congr g ref x y
    p pstart w_speed w_direction maxRand hsize (hag x y hx hxN hy hyN)
    (fun nb hm => by
      obtain ⟨h1, h2, h3, h4⟩ := getNeighbors_inRange hm
      exact hag nb.1 nb.2 h1 h2 h3 h4)
  rw [hcongr, hcell] at href
  simp only [Except.ok.injEq, Prod.mk.injEq] at href
  rw [hread, href.1]

theorem randUnit_not_neg (s : Rand) : ¬ (randUnit s).1 < 0 :=
  not_lt.mpr (randUnit_nonneg s)

/-- One cell of the scenario grid, other than the centre, when the first draw is `1`: with
`p = 1` and `w_speed = 0` the adjusted probability is `1`, the draw is not below it, and the
cell stays `NormalForest`. -/
theorem updateCell_forest5_one (w_direction : ℚ) (t : Rand) (ht : (randUnit t).1 = 1)
    (x y : Int) (hx : 0 ≤ x) (hx5 : x < 5) (hy : 0 ≤ y) (hy5 : y < 5)
    (hne : ¬ (x = 2 ∧ y = 2)) :
    ∃ s2, updateCell forest5 x y 1 0 0 w_direction t = .ok (CellType.NormalForest, s2) := by
  interval_cases x <;> interval_cases y <;>
    first
    | (exfalso; omega)
    | simp [updateCell, forest5, readCell, getNeighbors, neighborStep, spreadLoop,
        getVegetationFactor, f32_zero, f32_one, ht, randUnit_not_neg,
        (by norm_num : ¬ (1 : ℚ) < 0)]

theorem updateCell_forest5_maxRand (w_direction : ℚ) (x y : Int)
    (hx : 0 ≤ x) (hx5 : x < 5) (hy : 0 ≤ y) (hy5 : y < 5) (hne : ¬ (x = 2 ∧ y = 2)) :
    ∃ s2, updateCell forest5 x y 1 0 0 w_direction maxRand =
      .ok (CellType.NormalForest, s2) :=
  updateCell_forest5_one w_direction maxRand (by rw [randUnit_maxRand]) x y hx hx5 hy hy5 hne

theorem updateCell_forest5Stuck_any (w_direction : ℚ) (t : Rand) (x y : Int)
    (hx : 0 ≤ x) (hx5 : x < 5) (hy : 0 ≤ y) (hy5 : y < 5) :
    ∃ s2, updateCell forest5Stuck x y 1 0 0 w_direction t =
      .ok (if x = 2 ∧ y = 2 then CellType.Burned else CellType.NormalForest, s2) := by
  interval_cases x <;> interval_cases y <;>
    simp [updateCell, forest5Stuck, readCell, getNeighbors, neighborStep, spreadLoop,
      getVegetationFactor, f32_zero, f32_one, randUnit_not_neg]

/-! ## Forced ignition and the end-to-end scenario -/

/-- The draw `static_cast<float>(rand()) / RAND_MAX` is `1` when `rand()` returns
`RAND_MAX`, and then it is not below a probability of `1`. -/
theorem randUnit_eq_one_of_max (s : Rand) (h0 : 0 < s.RAND_MAX) (h : s.out 0 = s.RAND_MAX) :
    (randUnit s).1 = 1 := by
  have h1 : (1 : ℚ) ≤ f32 (s.RAND_MAX : ℚ) := by
    have := f32_mono (a := 1) (b := (s.RAND_MAX : ℚ)) (by exact_mod_cast h0)
    rwa [f32_one] at this
  have hne : f32 (s.RAND_MAX : ℚ) ≠ 0 := by linarith
  simp only [randUnit, rand, h, div_self hne, f32_one]

/-- C3, on the failing input.  On the `1 × 1` grid holding one `NormalForest` cell, with
`pstart = 1` and a generator whose draw is `RAND_MAX`, `update` leaves the cell
`NormalForest`: the draw `RAND_MAX / RAND_MAX = 1` is not below `pstart`. -/
theorem forcedIgnition_fails_at_max :
    maxRand.Valid ∧ forest1.WF ∧ getCell forest1 0 0 = .ok CellType.NormalForest ∧
      ∃ g' s', update forest1 (4 / 5) 1 (1 / 2) 30 maxRand = .ok (g', s') ∧
        getCell g' 0 0 = .ok CellType.NormalForest := by
  refine ⟨maxRand_valid, by decide, rfl, ?_⟩
  obtain ⟨g', hrun, -, -, hcells⟩ :=
    @update_maxRand forest1 forest1 (by decide) rfl (fun _ _ _ _ _ _ => rfl)
      (4 / 5) 1 (1 / 2) 30
  refine ⟨g', maxRand, hrun, hcells 0 0 CellType.NormalForest maxRand le_rfl (by decide) le_rfl
    (by decide) ?_⟩
  simp [updateCell, forest1, readCell, getNeighbors, neighborStep, spreadLoop, randUnit_maxRand,
    f32_zero, f32_one]

/-- Forced ignition when no draw is `1`: with `pstart = 1` and a generator all of whose draws
`static_cast<float>(rand()) / RAND_MAX` are below `1`, `updateCell` turns every
`NormalForest`, `DryGrass` or `DenseTrees` cell of a well-formed grid into `Burning`. -/
theorem updateCell_forced_of_lt {g : Grid} (hwf : g.WF) {x y : Int} {current : CellType}
    (p w_speed w_direction : ℚ) (s : Rand) (hlt : ∀ j, (randUnit (s.drop j)).1 < 1)
    (h : readCell g.cells y x = .ok current)
    (hveg : current = CellType.NormalForest ∨ current = CellType.DryGrass ∨
      current = CellType.DenseTrees) :
    ∃ k, updateCell g x y p 1 w_speed w_direction s = .ok (CellType.Burning, s.drop k) := by
  obtain ⟨b, k, hk⟩ := spreadLoop_ok g x y current p w_speed w_direction hwf
    (getNeighbors g x y) s (fun nb hm => getNeighbors_inRange hm)
  have hdraw : (randUnit (s.drop k)).1 < 1 := hlt k
  have h1 : current ≠ CellType.Burning := by rcases hveg with rfl | rfl | rfl <;> decide
  have h2 : ¬ (current = CellType.Burned ∨ current = CellType.Water) := by
    rcases hveg with rfl | rfl | rfl <;> decide
  simp only [updateCell, h, hk, h1, h2, if_false]
  cases b
  · simp only [hdraw, if_true, randUnit_snd, Rand.drop_drop]; exact ⟨_, rfl⟩
  · exact ⟨_, rfl⟩

/-- Forced ignition for a whole `update` when no draw is `1`: with `pstart = 1` and a
generator all of whose draws `static_cast<float>(rand()) / RAND_MAX` are below `1`, every
`NormalForest`, `DryGrass` or `DenseTrees` cell of a well-formed grid is `Burning` after the
update. -/
theorem update_forced_of_lt {g : Grid} (hwf : g.WF) (p w_speed w_direction : ℚ) (s : Rand)
    (hlt : ∀ j, (randUnit (s.drop j)).1 < 1) :
    ∃ g' s', update g p 1 w_speed w_direction s = .ok (g', s') ∧
      ∀ x y v, v = CellType.NormalForest ∨ v = CellType.DryGrass ∨ v = CellType.DenseTrees →
        getCell g x y = .ok v → getCell g' x y = .ok CellType.Burning := by
  obtain ⟨g', k, hrun, -, -, hcells⟩ := update_spec hwf p 1 w_speed w_direction s
  refine ⟨g', _, hrun, ?_⟩
  intro x y v hv hget
  obtain ⟨hx, hxN, hy, hyN⟩ := getCell_ok_range hwf hget
  obtain ⟨j, c, s2, -, hcell, hread⟩ := hcells x y hx hxN hy hyN
  obtain ⟨k', hk'⟩ := updateCell_forced_of_lt hwf p w_speed w_direction (s.drop j)
    (fun n => by rw [Rand.drop_drop]; exact hlt (j + n)) hget hv
  rw [hk'] at hcell
  simp only [Except.ok.injEq, Prod.mk.injEq] at hcell
  rw [hread, ← hcell.1]

/-- C5, on the failing input.  In the `5 × 5` scenario with `p = 1`, `pstart = 0`,
`w_speed = 0`, any wind direction, and a generator whose draws are all `RAND_MAX`, one
`update` burns out the centre and leaves every other cell, the eight neighbours of the centre
included, `NormalForest`. -/
theorem scenario_first_step_at_max (w_direction : ℚ) :
    ∃ g' s', update forest5 1 0 0 w_direction maxRand = .ok (g', s') ∧
      getCell g' 2 2 = .ok CellType.Burned ∧
      ∀ x y, 0 ≤ x → x < 5 → 0 ≤ y → y < 5 → ¬ (x = 2 ∧ y = 2) →
        getCell g' x y = .ok CellType.NormalForest := by
  obtain ⟨g', hrun, -, -, hcells⟩ :=
    @update_maxRand forest5 forest5 (by decide) rfl (fun _ _ _ _ _ _ => rfl)
      1 0 0 w_direction
  refine ⟨g', maxRand, hrun, ?_, ?_⟩
  · exact hcells 2 2 CellType.Burned maxRand (by decide) (by decide) (by decide) (by decide)
      (updateCell_burning 1 0 0 w_direction maxRand rfl)
  · intro x y hx hx5 hy hy5 hne
    obtain ⟨s2, hs2⟩ := updateCell_forest5_maxRand w_direction x y hx hx5 hy hy5 hne
    exact hcells x y _ _ hx hx5 hy hy5 hs2

theorem getCell_forest5Stuck (x y : Int) (hx : 0 ≤ x) (hx5 : x < 5) (hy : 0 ≤ y) (hy5 : y < 5) :
    getCell forest5Stuck x y =
      .ok (if x = 2 ∧ y = 2 then CellType.Burned else CellType.NormalForest) := by
  interval_cases x <;> interval_cases y <;> rfl

/-- C6, on the failing input.  In the `5 × 5` scenario with `p = 1`, `pstart = 0`,
`w_speed = 0`, any wind direction, and a generator whose draws are all `RAND_MAX`, two
successive updates leave the centre `Burned` and every other cell, ring and border alike,
`NormalForest`. -/
theorem scenario_second_step_at_max (w_direction : ℚ) :
    ∃ g' s', updateN 1 0 0 w_direction 2 forest5 maxRand = .ok (g', s') ∧
      getCell g' 2 2 = .ok CellType.Burned ∧
      ∀ x y, 0 ≤ x → x < 5 → 0 ≤ y → y < 5 → ¬ (x = 2 ∧ y = 2) →
        getCell g' x y = .ok CellType.NormalForest := by
  obtain ⟨g1, hrun1, hwf1, hsz1, hcells1⟩ :=
    @update_maxRand forest5 forest5 (by decide) rfl (fun _ _ _ _ _ _ => rfl)
      1 0 0 w_direction
  have hsz1' : g1.size = 5 := hsz1
  have hag : ∀ x y, 0 ≤ x → x < g1.size → 0 ≤ y → y < g1.size →
      getCell forest5Stuck x y = getCell g1 x y := by
    intro x y hx hx5 hy hy5
    rw [hsz1'] at hx5 hy5
    rw [getCell_forest5Stuck x y hx hx5 hy hy5]
    by_cases hc : x = 2 ∧ y = 2
    · obtain ⟨rfl, rfl⟩ := hc
      exact (hcells1 2 2 CellType.Burned maxRand (by decide) (by decide) (by decide)
        (by decide) (updateCell_burning 1 0 0 w_direction maxRand rfl)).symm
    · rw [if_neg hc]
      obtain ⟨s2, hs2⟩ := updateCell_forest5_maxRand w_direction x y hx hx5 hy hy5 hc
      exact (hcells1 x y _ _ hx hx5 hy hy5 hs2).symm
  obtain ⟨g2, hrun2, -, -, hcells2⟩ :=
    @update_maxRand g1 forest5Stuck hwf1 hsz1'.symm hag 1 0 0 w_direction
  have hfinal : ∀ x y, 0 ≤ x → x < 5 → 0 ≤ y → y < 5 →
      getCell g2 x y = .ok (if x = 2 ∧ y = 2 then CellType.Burned else CellType.NormalForest) :=
    fun x y hx hx5 hy hy5 => by
      obtain ⟨s2, hs2⟩ := updateCell_forest5Stuck_any w_direction maxRand x y hx hx5 hy hy5
      exact hcells2 x y _ _ hx (by omega) hy (by omega) hs2
  refine ⟨g2, maxRand, ?_, ?_, ?_⟩
  · rw [updateN_succ_ok 1 hrun1, updateN_succ_ok 0 hrun2]
    rfl
  · simpa using hfinal 2 2 (by decide) (by decide) (by decide) (by decide)
  · intro x y hx hx5 hy hy5 hne
    rw [hfinal x y hx hx5 hy hy5, if_neg hne]

/-! ## The end-to-end scenario when no draw is `1` -/

/-- One `update`, computed cell by cell on a reference grid `ref` that has the same cells as
`g`: each cell gets what `updateCell` returns on `ref` for the generator state reached by the
sweep, which is the initial one after some number of draws. -/
theorem update_eval {g ref : Grid} (hwf : g.WF) (hsize : ref.size = g.size)
    (hag : ∀ x y, 0 ≤ x → x < g.size → 0 ≤ y → y < g.size → getCell ref x y = getCell g x y)
    (p pstart w_speed w_direction : ℚ) (s : Rand) :
    ∃ g' k, update g p pstart w_speed w_direction s = .ok (g', s.drop k) ∧
      g'.WF ∧ g'.size = g.size ∧
      ∀ x y, 0 ≤ x → x < g.size → 0 ≤ y → y < g.size →
        ∃ j, ∀ c s2, updateCell ref x y p pstart w_speed w_direction (s.drop j) = .ok (c, s2) →
          getCell g' x y = .ok c := by
  obtain ⟨g', k, hrun, hwf', hsz, hcells⟩ := update_spec hwf p pstart w_speed w_direction s
  refine ⟨g', k, hrun, hwf', hsz, ?_⟩
  intro x y hx hxN hy hyN
  obtain ⟨j, c', s2', -, hcell, hread⟩ := hcells x y hx hxN hy hyN
  refine ⟨j, ?_⟩
  intro c s2 href
  have hcongr := @updateCell_congr g ref x y
    p pstart w_speed w_direction (s.drop j) hsize (hag x y hx hxN hy hyN)
    (fun nb hm => by
      obtain ⟨h1, h2, h3, h4⟩ := getNeighbors_inRange hm
      exact hag nb.1 nb.2 h1 h2 h3 h4)
  rw [hcongr, hcell] at href
  simp only [Except.ok.injEq, Prod.mk.injEq] at href
  rw [hread, href.1]

theorem getCell_forest5Ring (x y : Int) (hx : 0 ≤ x) (hx5 : x < 5) (hy : 0 ≤ y) (hy5 : y < 5) :
    getCell forest5Ring x y =
      .ok (if x = 2 ∧ y = 2 then CellType.Burned
        else if 1 ≤ x ∧ x ≤ 3 ∧ 1 ≤ y ∧ y ≤ 3 then CellType.Burning
        else CellType.NormalForest) := by
  interval_cases x <;> interval_cases y <;> rfl

theorem updateCell_forest5_lt (w_direction : ℚ) (t : Rand) (ht : (randUnit t).1 < 1)
    (x y : Int) (hx : 0 ≤ x) (hx5 : x < 5) (hy : 0 ≤ y) (hy5 : y < 5) :
    ∃ s2, updateCell forest5 x y 1 0 0 w_direction t =
      .ok (if x = 2 ∧ y = 2 then CellType.Burned
        else if 1 ≤ x ∧ x ≤ 3 ∧ 1 ≤ y ∧ y ≤ 3 then CellType.Burning
        else CellType.NormalForest, s2) := by
  interval_cases x <;> interval_cases y <;>
    simp [updateCell, forest5, readCell, getNeighbors, neighborStep, spreadLoop,
      getVegetationFactor, ht, randUnit_not_neg, f32_zero, f32_one]

theorem updateCell_forest5Ring_lt (w_direction : ℚ) (t : Rand) (ht : (randUnit t).1 < 1)
    (x y : Int) (hx : 0 ≤ x) (hx5 : x < 5) (hy : 0 ≤ y) (hy5 : y < 5) :
    ∃ s2, updateCell forest5Ring x y 1 0 0 w_direction t =
      .ok (if 1 ≤ x ∧ x ≤ 3 ∧ 1 ≤ y ∧ y ≤ 3 then CellType.Burned else CellType.Burning, s2) := by
  interval_cases x <;> interval_cases y <;>
    simp [updateCell, forest5Ring, readCell, getNeighbors, neighborStep, spreadLoop,
      getVegetationFactor, ht, randUnit_not_neg, f32_zero, f32_one]

/-- The first step of the end-to-end scenario for every generator all of whose draws
`static_cast<float>(rand()) / RAND_MAX` are below `1`: the centre is `Burned`, its 8 neighbours are `Burning`, the 16 border cells (the
four corners among them) are `NormalForest`. -/
theorem scenario_first_step_of_lt (w_direction : ℚ) (s : Rand)
    (hlt : ∀ j, (randUnit (s.drop j)).1 < 1) :
    ∃ g' k, update forest5 1 0 0 w_direction s = .ok (g', s.drop k) ∧
      g'.WF ∧ g'.size = 5 ∧
      ∀ x y, 0 ≤ x → x < 5 → 0 ≤ y → y < 5 →
        getCell g' x y =
          .ok (if x = 2 ∧ y = 2 then CellType.Burned
            else if 1 ≤ x ∧ x ≤ 3 ∧ 1 ≤ y ∧ y ≤ 3 then CellType.Burning
            else CellType.NormalForest) := by
  obtain ⟨g', k, hrun, hwf', hsz, hcells⟩ :=
    @update_eval forest5 forest5 (by decide) rfl (fun _ _ _ _ _ _ => rfl) 1 0 0 w_direction s
  refine ⟨g', k, hrun, hwf', hsz, ?_⟩
  intro x y hx hx5 hy hy5
  obtain ⟨j, hj⟩ := hcells x y hx hx5 hy hy5
  obtain ⟨s2, hs2⟩ := updateCell_forest5_lt w_direction (s.drop j)
    (hlt j) x y hx hx5 hy hy5
  exact hj _ _ hs2

/-- The second step of the end-to-end scenario for every generator all of whose draws
`static_cast<float>(rand()) / RAND_MAX` are below `1`: after two updates the centre and the ring around it are `Burned` and the 16
border cells are `Burning`. -/
theorem scenario_second_step_of_lt (w_direction : ℚ) (s : Rand)
    (hlt : ∀ j, (randUnit (s.drop j)).1 < 1) :
    ∃ g' s', updateN 1 0 0 w_direction 2 forest5 s = .ok (g', s') ∧
      ∀ x y, 0 ≤ x → x < 5 → 0 ≤ y → y < 5 →
        getCell g' x y =
          .ok (if 1 ≤ x ∧ x ≤ 3 ∧ 1 ≤ y ∧ y ≤ 3 then CellType.Burned
            else CellType.Burning) := by
  obtain ⟨g1, k1, hrun1, hwf1, hsz1, hcells1⟩ := scenario_first_step_of_lt w_direction s hlt
  have hag : ∀ x y, 0 ≤ x → x < g1.size → 0 ≤ y → y < g1.size →
      getCell forest5Ring x y = getCell g1 x y := by
    intro x y hx hx5 hy hy5
    rw [hsz1] at hx5 hy5
    rw [getCell_forest5Ring x y hx hx5 hy hy5, hcells1 x y hx hx5 hy hy5]
  obtain ⟨g2, k2, hrun2, -, -, hcells2⟩ :=
    @update_eval g1 forest5Ring hwf1 hsz1.symm hag 1 0 0 w_direction (s.drop k1)
  refine ⟨g2, (s.drop k1).drop k2, ?_, ?_⟩
  · rw [updateN_succ_ok 1 hrun1, updateN_succ_ok 0 hrun2]
    rfl
  · intro x y hx hx5 hy hy5
    obtain ⟨j, hj⟩ := hcells2 x y hx (by omega) hy (by omega)
    obtain ⟨s2, hs2⟩ := updateCell_forest5Ring_lt w_direction ((s.drop k1).drop j)
      (by rw [Rand.drop_drop]; exact hlt _) x y hx hx5 hy hy5
    exact hj _ _ hs2

/-! ## Snapshot consistency -/

/-- C7 (snapshot consistency).  On every well-formed grid `g`, for all parameters, every
stream of random draws and every in-range cell `(x, y)`: `update` succeeds, the sweep reaches
the cell with some generator state `sm`, and the new state of the cell is the result of
`updateCell(x, y)` evaluated on the old grid `g` with `sm`.  That result depends on `g` only
through the cell and its in-bounds Moore neighbours: `updateCell` gives the same answer on
every grid `g2` of the same size that agrees with `g` there, and an `update` of such a
well-formed `g2` that reaches the cell with the same generator state gives the cell the same
new state. -/
theorem snapshotConsistency (g : Grid) (hwf : g.WF) (p pstart w_speed w_direction : ℚ)
    (s : Rand) (x y : Int) (hx : 0 ≤ x) (hxN : x < g.size) (hy : 0 ≤ y) (hyN : y < g.size) :
    ∃ g' s' sm c s2,
      update g p pstart w_speed w_direction s = .ok (g', s') ∧
      randAt g p pstart w_speed w_direction s x y = .ok sm ∧
      updateCell g x y p pstart w_speed w_direction sm = .ok (c, s2) ∧
      getCell g' x y = .ok c ∧
      ∀ g2 : Grid, g2.size = g.size → getCell g2 x y = getCell g x y →
        (∀ nb ∈ getNeighbors g x y, getCell g2 nb.1 nb.2 = getCell g nb.1 nb.2) →
        updateCell g2 x y p pstart w_speed w_direction sm = .ok (c, s2) ∧
        ∀ t : Rand, g2.WF → randAt g2 p pstart w_speed w_direction t x y = .ok sm →
          ∃ g2' t', update g2 p pstart w_speed w_direction t = .ok (g2', t') ∧
            getCell g2' x y = .ok c := by
  obtain ⟨g', k, hrun, -, -, hcells⟩ := update_spec hwf p pstart w_speed w_direction s
  obtain ⟨j, c, s2, hat, hcell, hread⟩ := hcells x y hx hxN hy hyN
  refine ⟨g', s.drop k, s.drop j, c, s2, hrun, hat, hcell, hread, ?_⟩
  intro g2 hsize hc hn
  have hcongr : updateCell g2 x y p pstart w_speed w_direction (s.drop j) = .ok (c, s2) := by
    rw [updateCell_congr p pstart w_speed w_direction (s.drop j) hsize hc hn, hcell]
  refine ⟨hcongr, ?_⟩
  intro t hwf2 hat2
  obtain ⟨g2', k2, hrun2, -, -, hcells2⟩ := update_spec hwf2 p pstart w_speed w_direction t
  obtain ⟨j2, c2, s22, hat2', hcell2, hread2⟩ :=
    hcells2 x y hx (by omega) hy (by omega)
  rw [hat2] at hat2'
  simp only [Except.ok.injEq] at hat2'
  rw [← hat2', hcongr] at hcell2
  simp only [Except.ok.injEq, Prod.mk.injEq] at hcell2
  exact ⟨g2', _, hrun2, by rw [hread2, ← hcell2.1]⟩

/-! ## Neighbour counts -/

/-- C8 (neighbour counts).  On a grid of size `N >= 2`, `getNeighbors(0, 0)` returns exactly
3 positions, `getNeighbors(0, y)` with `0 < y < N - 1` exactly 5, and `getNeighbors(x, y)`
with `0 < x < N - 1` and `0 < y < N - 1` exactly 8. -/
theorem neighborCounts (g : Grid) (hN : 2 ≤ g.size) :
    (getNeighbors g 0 0).length = 3 ∧
    (∀ y, 0 < y → y < g.size - 1 → (getNeighbors g 0 y).length = 5) ∧
    (∀ x y, 0 < x → x < g.size - 1 → 0 < y → y < g.size - 1 →
      (getNeighbors g x y).length = 8) := by
  refine ⟨?_, ?_, ?_⟩
  · have h1 : (0 : Int) < g.size := by omega
    have h2 : (1 : Int) < g.size := by omega
    simp [getNeighbors, neighborStep, h1, h2]
  · intro y hy0 hy1
    have h1 : (0 : Int) < g.size := by omega
    have h2 : (1 : Int) < g.size := by omega
    have h3 : 0 ≤ y + -1 := by omega
    have h4 : y + -1 < g.size := by omega
    have h5 : 0 ≤ y := by omega
    have h6 : y < g.size := by omega
    have h7 : 0 ≤ y + 1 := by omega
    have h8 : y + 1 < g.size := by omega
    simp [getNeighbors, neighborStep, h1, h2, h3, h4, h5, h6, h7, h8]
  · intro x y hx0 hx1 hy0 hy1
    have h3 : 0 ≤ y + -1 := by omega
    have h4 : y + -1 < g.size := by omega
    have h5 : 0 ≤ y := by omega
    have h6 : y < g.size := by omega
    have h7 : 0 ≤ y + 1 := by omega
    have h8 : y + 1 < g.size := by omega
    have k3 : 0 ≤ x + -1 := by omega
    have k4 : x + -1 < g.size := by omega
    have k5 : 0 ≤ x := by omega
    have k6 : x < g.size := by omega
    have k7 : 0 ≤ x + 1 := by omega
    have k8 : x + 1 < g.size := by omega
    simp [getNeighbors, neighborStep, h3, h4, h5, h6, h7, h8, k3, k4, k5, k6, k7, k8]

/-! ## The initial configuration -/

theorem dim_replicate (N : Nat) (v : CellType) :
    Dim (List.replicate N (List.replicate N v)) N := by
  refine ⟨by simp, ?_⟩
  intro row hrow
  rw [(List.mem_replicate.mp hrow).2]
  simp

theorem readCell_replicate (N : Nat) (v : CellType) {y x : Int}
    (hy : 0 ≤ y) (hyN : y < N) (hx : 0 ≤ x) (hxN : x < N) :
    readCell (List.replicate N (List.replicate N v)) y x = .ok v := by
  have h1 : y.toNat < N := by omega
  have h2 : x.toNat < N := by omega
  simp [readCell, hy, hx, List.getElem?_replicate, h1, h2]

theorem truncToInt_mul_zero (q : ℚ) : truncToInt (f32 (q * 0)) = 0 := by
  simp [truncToInt, f32_zero]

/-- The grid built by the constructor when no water is drawn: the three assignments of
`initializeGrid` are made in order on a grid of `NormalForest`, a later one overwriting an
earlier one at the same position. -/
theorem create_noWater (size : Int) (h : 1 ≤ size) (s : Rand) :
    ∃ g, Grid.create size 0 s = .ok (g, s) ∧ g.WF ∧ g.size = size ∧
      ∀ x y, 0 ≤ x → x < size → 0 ≤ y → y < size →
        getCell g x y = .ok
          (if x = 3 * size / 4 ∧ y = 3 * size / 4 then CellType.DenseTrees
           else if x = size / 4 ∧ y = size / 4 then CellType.DryGrass
           else if x = size / 2 ∧ y = size / 2 then CellType.Burning
           else CellType.NormalForest) := by
  have h0 : 0 ≤ size := by omega
  have e2 : Int.tdiv size 2 = size / 2 := Int.tdiv_eq_ediv h0 (by decide)
  have e4 : Int.tdiv size 4 = size / 4 := Int.tdiv_eq_ediv h0 (by decide)
  have e34 : Int.tdiv (3 * size) 4 = 3 * size / 4 := Int.tdiv_eq_ediv (by omega) (by decide)
  have hN : ((size.toNat : Nat) : Int) = size := Int.toNat_of_nonneg h0
  have hd0 := dim_replicate size.toNat CellType.NormalForest
  obtain ⟨c1, hw1, hd1, hr1⟩ := writeCell_spec hd0 (y := size / 2) (x := size / 2)
    CellType.Burning (by omega) (by omega) (by omega) (by omega)
  obtain ⟨c2, hw2, hd2, hr2⟩ := writeCell_spec hd1 (y := size / 4) (x := size / 4)
    CellType.DryGrass (by omega) (by omega) (by omega) (by omega)
  obtain ⟨c3, hw3, hd3, hr3⟩ := writeCell_spec hd2 (y := 3 * size / 4) (x := 3 * size / 4)
    CellType.DenseTrees (by omega) (by omega) (by omega) (by omega)
  refine ⟨{ size := size, cells := c3 }, ?_, ⟨h0, hd3.1, hd3.2⟩, rfl, ?_⟩
  · have hneg : ¬ size < 0 := by omega
    simp only [Grid.create, hneg, if_false, initializeGrid, e2, e4, e34, hw1, hw2, hw3,
      Rat.cast_zero, truncToInt_mul_zero, Int.toNat_zero, waterLoop]
  · intro x y hx hxN hy hyN
    simp only [getCell, hr3, hr2, hr1]
    rw [readCell_replicate size.toNat CellType.NormalForest hy (by omega) hx (by omega)]
    split_ifs <;> first | rfl | (exfalso; omega)

/-- C9, as stated, fails at `size = 2`: the cell `(size/2, size/2) = (1, 1)` is also the cell
`(3*size/4, 3*size/4)`, and the constructor leaves it `DenseTrees`, not `Burning`. -/
theorem create_size_two_overwrites :
    (∃ g s', Grid.create 2 0 maxRand = .ok (g, s') ∧
      getCell g (2 / 2) (2 / 2) = .ok CellType.DenseTrees) ∧
    ¬ ∃ g s', Grid.create 2 0 maxRand = .ok (g, s') ∧
      getCell g (2 / 2) (2 / 2) = .ok CellType.Burning := by
  obtain ⟨g, hrun, -, -, hcells⟩ := create_noWater 2 (by decide) maxRand
  have h11 := hcells 1 1 (by decide) (by decide) (by decide) (by decide)
  have h11' : getCell g 1 1 = .ok CellType.DenseTrees := by simpa using h11
  refine ⟨⟨g, maxRand, hrun, h11'⟩, ?_⟩
  rintro ⟨g2, s2, hrun2, hb⟩
  rw [hrun] at hrun2
  simp only [Except.ok.injEq, Prod.mk.injEq] at hrun2
  rw [← hrun2.1] at hb
  have hb' : getCell g 1 1 = .ok CellType.Burning := hb
  rw [h11'] at hb'
  simp at hb'

/-- C9 (initial configuration), amended.  For every `size >= 1`, when no water is drawn
(`water_ratio = 0`), the constructor returns a well-formed grid of that size whose cells are
those of a `NormalForest` grid after the assignments `(size/2, size/2) := Burning`,
`(size/4, size/4) := DryGrass`, `(3*size/4, 3*size/4) := DenseTrees` made in this order, a
later one overwriting an earlier one.  For every `size >= 3` the three positions are distinct,
so that `(size/2, size/2)` is `Burning`, `(size/4, size/4)` is `DryGrass`,
`(3*size/4, 3*size/4)` is `DenseTrees` and every other cell is `NormalForest`. -/
theorem initialConfiguration (size : Int) (h : 1 ≤ size) (s : Rand) :
    ∃ g, Grid.create size 0 s = .ok (g, s) ∧ g.WF ∧ g.size = size ∧
      (∀ x y, 0 ≤ x → x < size → 0 ≤ y → y < size →
        getCell g x y = .ok
          (if x = 3 * size / 4 ∧ y = 3 * size / 4 then CellType.DenseTrees
           else if x = size / 4 ∧ y = size / 4 then CellType.DryGrass
           else if x = size / 2 ∧ y = size / 2 then CellType.Burning
           else CellType.NormalForest)) ∧
      (3 ≤ size →
        getCell g (size / 2) (size / 2) = .ok CellType.Burning ∧
        getCell g (size / 4) (size / 4) = .ok CellType.DryGrass ∧
        getCell g (3 * size / 4) (3 * size / 4) = .ok CellType.DenseTrees ∧
        ∀ x y, 0 ≤ x → x < size → 0 ≤ y → y < size →
          ¬ (x = size / 2 ∧ y = size / 2) → ¬ (x = size / 4 ∧ y = size / 4) →
          ¬ (x = 3 * size / 4 ∧ y = 3 * size / 4) →
          getCell g x y = .ok CellType.NormalForest) := by
  obtain ⟨g, hrun, hwf, hsize, hcells⟩ := create_noWater size h s
  refine ⟨g, hrun, hwf, hsize, hcells, ?_⟩
  intro h3
  refine ⟨?_, ?_, ?_, ?_⟩
  · rw [hcells (size / 2) (size / 2) (by omega) (by omega) (by omega) (by omega)]
    have h1 : ¬ (size / 2 = 3 * size / 4) := by
      rcases (by omega : size = 3 ∨ 4 ≤ size) with rfl | h4
      · decide
      · omega
    have h2 : ¬ (size / 2 = size / 4) := by omega
    simp [h1, h2]
  · rw [hcells (size / 4) (size / 4) (by omega) (by omega) (by omega) (by omega)]
    have h1 : ¬ (size / 4 = 3 * size / 4) := by omega
    simp [h1]
  · rw [hcells (3 * size / 4) (3 * size / 4) (by omega) (by omega) (by omega) (by omega)]
    simp
  · intro x y hx hxN hy hyN n1 n2 n3
    rw [hcells x y hx hxN hy hyN]
    simp [n1, n2, n3]

/-! ## Directional influence -/

/-- The directional influence is in `[0, 1]` whenever the wind direction and the bearing
differ by at most 360 degrees. -/
theorem calculateDirectionalInfluence_mem_unit (w_direction angle : ℚ)
    (h : |w_direction - angle| ≤ 360) :
    0 ≤ calculateDirectionalInfluence w_direction angle ∧
      calculateDirectionalInfluence w_direction angle ≤ 1 := by
  have e360 : f32 360 = 360 := by simpa using f32_intCast (n := 360) (by norm_num)
  have e360' : f32 (-360) = -360 := by simpa using f32_intCast (n := -360) (by norm_num)
  have e180 : f32 180 = 180 := by simpa using f32_intCast (n := 180) (by norm_num)
  rw [abs_le] at h
  have hd : |f32 (w_direction - angle)| ≤ 360 :=
    abs_le.mpr ⟨le_f32_of_le e360' h.1, f32_le_of_le e360 h.2⟩
  have hd0 : 0 ≤ |f32 (w_direction - angle)| := abs_nonneg _
  set d := |f32 (w_direction - angle)| with hdef
  have hm0 : 0 ≤ min d (f32 (360 - d)) := le_min hd0 (f32_nonneg (by linarith))
  have hm1 : min d (f32 (360 - d)) ≤ 180 := by
    rcases le_total d 180 with h1 | h1
    · exact (min_le_left _ _).trans h1
    · exact (min_le_right _ _).trans (f32_le_of_le e180 (by linarith))
  have hq0 : 0 ≤ f32 (min d (f32 (360 - d)) / 180) := f32_nonneg (by positivity)
  have hq1 : f32 (min d (f32 (360 - d)) / 180) ≤ 1 :=
    f32_le_of_le f32_one (by rw [div_le_one (by norm_num)]; exact hm1)
  simp only [calculateDirectionalInfluence, ← hdef]
  exact ⟨f32_nonneg (by linarith), f32_le_of_le f32_one (by linarith)⟩

/-- For a wind direction in `[0, 360]` and a bearing in `[-180, 180]` the directional
influence is in `[0, 2]`. -/
theorem calculateDirectionalInfluence_mem_two (w_direction angle : ℚ)
    (hw0 : 0 ≤ w_direction) (hw : w_direction ≤ 360) (ha0 : -180 ≤ angle) (ha : angle ≤ 180) :
    0 ≤ calculateDirectionalInfluence w_direction angle ∧
      calculateDirectionalInfluence w_direction angle ≤ 2 := by
  have e540 : f32 540 = 540 := by simpa using f32_intCast (n := 540) (by norm_num)
  have e540' : f32 (-540) = -540 := by simpa using f32_intCast (n := -540) (by norm_num)
  have e180 : f32 180 = 180 := by simpa using f32_intCast (n := 180) (by norm_num)
  have e180' : f32 (-180) = -180 := by simpa using f32_intCast (n := -180) (by norm_num)
  have e1' : f32 (-1) = -1 := by simpa using f32_intCast (n := -1) (by norm_num)
  have e2 : f32 2 = 2 := by simpa using f32_intCast (n := 2) (by norm_num)
  have hd : |f32 (w_direction - angle)| ≤ 540 :=
    abs_le.mpr ⟨le_f32_of_le e540' (by linarith), f32_le_of_le e540 (by linarith)⟩
  have hd0 : 0 ≤ |f32 (w_direction - angle)| := abs_nonneg _
  set d := |f32 (w_direction - angle)| with hdef
  have hm0 : -180 ≤ min d (f32 (360 - d)) :=
    le_min (by linarith) (le_f32_of_le e180' (by linarith))
  have hm1 : min d (f32 (360 - d)) ≤ 180 := by
    rcases le_total d 180 with h1 | h1
    · exact (min_le_left _ _).trans h1
    · exact (min_le_right _ _).trans (f32_le_of_le e180 (by linarith))
  have hq0 : -1 ≤ f32 (min d (f32 (360 - d)) / 180) :=
    le_f32_of_le e1' (by rw [le_div_iff₀ (by norm_num)]; linarith)
  have hq1 : f32 (min d (f32 (360 - d)) / 180) ≤ 1 :=
    f32_le_of_le f32_one (by rw [div_le_one (by norm_num)]; exact hm1)
  simp only [calculateDirectionalInfluence, ← hdef]
  exact ⟨f32_nonneg (by linarith), f32_le_of_le e2 (by linarith)⟩

/-- C10, on the failing input.  The neighbour at offset `(-1, -1)` has bearing `-135`; with the
wind direction `360` the directional influence for it is `7/4`, outside `[0, 1]`, while the
wind direction `0`, which is the same direction, gives `1/4`. -/
theorem directionalInfluence_exceeds_one :
    calculateAngle 1 1 0 0 = -135 ∧
      calculateDirectionalInfluence 360 (calculateAngle 1 1 0 0) = 7 / 4 ∧
      ¬ calculateDirectionalInfluence 360 (calculateAngle 1 1 0 0) ≤ 1 ∧
      calculateDirectionalInfluence 0 (calculateAngle 1 1 0 0) = 1 / 4 := by
  have ha : calculateAngle 1 1 0 0 = -135 := by
    simp [calculateAngle, atan2Deg]
  have e495 : f32 495 = 495 := by simpa using f32_intCast (n := 495) (by norm_num)
  have e135 : f32 135 = 135 := by simpa using f32_intCast (n := 135) (by norm_num)
  have e135' : f32 (-135) = -135 := by simpa using f32_intCast (n := -135) (by norm_num)
  have e225 : f32 225 = 225 := by simpa using f32_intCast (n := 225) (by norm_num)
  have e34 : f32 (3 / 4) = 3 / 4 := by
    have := f32_of_rep 3 (-2) (by norm_num) (by norm_num)
    norm_num at this
    exact this
  have e34' : f32 (-(3 / 4)) = -(3 / 4) := by
    have := f32_of_rep (-3) (-2) (by norm_num) (by norm_num)
    norm_num at this
    exact this
  have e74 : f32 (7 / 4) = 7 / 4 := by
    have := f32_of_rep 7 (-2) (by norm_num) (by norm_num)
    norm_num at this
    exact this
  have e14 : f32 (1 / 4) = 1 / 4 := by
    have := f32_of_rep 1 (-2) (by norm_num) (by norm_num)
    norm_num at this
    exact this
  have h360 : calculateDirectionalInfluence 360 (-135) = 7 / 4 := by
    have s1 : (360 : ℚ) - -135 = 495 := by norm_num
    have s2 : (360 : ℚ) - 495 = -135 := by norm_num
    have s3 : min (495 : ℚ) (-135) = -135 := min_eq_right (by norm_num)
    have s4 : (-135 : ℚ) / 180 = -(3 / 4) := by norm_num
    have s5 : (1 : ℚ) - -(3 / 4) = 7 / 4 := by norm_num
    simp only [calculateDirectionalInfluence, s1, e495, abs_of_pos (by norm_num : (0 : ℚ) < 495),
      s2, e135', s3, s4, e34', s5, e74]
  have h0 : calculateDirectionalInfluence 0 (-135) = 1 / 4 := by
    have s1 : (0 : ℚ) - -135 = 135 := by norm_num
    have s2 : (360 : ℚ) - 135 = 225 := by norm_num
    have s3 : min (135 : ℚ) 225 = 135 := min_eq_left (by norm_num)
    have s4 : (135 : ℚ) / 180 = 3 / 4 := by norm_num
    have s5 : (1 : ℚ) - 3 / 4 = 1 / 4 := by norm_num
    simp only [calculateDirectionalInfluence, s1, e135, abs_of_pos (by norm_num : (0 : ℚ) < 135),
      s2, e225, s3, s4, e34, s5, e14]
  rw [ha]
  refine ⟨rfl, h360, ?_, h0⟩
  rw [h360]
  norm_num

/-! ## Instances of the theorems above on a sample grid -/

/-- The absorption theorem on the sample grid: its `Water` and `Burned` cells keep their state
over any number of updates. -/
theorem absorption_witness :
    sampleGrid.WF ∧
      ∀ n : Nat, ∃ g' s', updateN (4 / 5) (1 / 100) (1 / 2) 30 n sampleGrid maxRand =
          .ok (g', s') ∧
        getCell g' 0 0 = .ok CellType.Water ∧ getCell g' 1 1 = .ok CellType.Burned := by
  refine ⟨by decide, fun n => ?_⟩
  obtain ⟨g', s', hrun, h⟩ :=
    (absorption sampleGrid (by decide) (4 / 5) (1 / 100) (1 / 2) 30 maxRand).2 n
  exact ⟨g', s', hrun, (h 0 0).1 rfl, (h 1 1).2 rfl⟩

/-- The one-tick burn theorem on the sample grid: its `Burning` cell is `Burned` after one
update. -/
theorem oneTickBurn_witness :
    sampleGrid.WF ∧
      ∃ g' s', update sampleGrid (4 / 5) (1 / 100) (1 / 2) 30 maxRand = .ok (g', s') ∧
        getCell g' 1 0 = .ok CellType.Burned := by
  refine ⟨by decide, ?_⟩
  obtain ⟨g', s', hrun, h⟩ :=
    oneTickBurn sampleGrid (by decide) (4 / 5) (1 / 100) (1 / 2) 30 maxRand
  exact ⟨g', s', hrun, h 1 0 rfl⟩

/-- The no-spread theorem on the sample grid, for three updates. -/
theorem noSpread_witness :
    sampleGrid.WF ∧
      ∃ g' s', updateN 0 0 (1 / 2) 30 3 sampleGrid (constRand glibcRandMax 0) = .ok (g', s') ∧
        getCell g' 0 1 = .ok CellType.NormalForest ∧ getCell g' 1 0 = .ok CellType.Burned := by
  refine ⟨by decide, ?_⟩
  obtain ⟨g', s', hrun, h1, h2⟩ :=
    noSpread sampleGrid (by decide) (1 / 2) 30 (constRand glibcRandMax 0) 3
  exact ⟨g', s', hrun, h1 0 1 _ (by decide) rfl, h2 (by decide) 1 0 rfl⟩

/-- The snapshot theorem on the sample grid, at the `NormalForest` cell `(0, 1)`. -/
theorem snapshotConsistency_witness :
    sampleGrid.WF ∧
      ∃ g' s' sm c s2,
        update sampleGrid (4 / 5) (1 / 100) (1 / 2) 30 maxRand = .ok (g', s') ∧
        randAt sampleGrid (4 / 5) (1 / 100) (1 / 2) 30 maxRand 0 1 = .ok sm ∧
        updateCell sampleGrid 0 1 (4 / 5) (1 / 100) (1 / 2) 30 sm = .ok (c, s2) ∧
        getCell g' 0 1 = .ok c := by
  refine ⟨by decide, ?_⟩
  obtain ⟨g', s', sm, c, s2, h1, h2, h3, h4, -⟩ :=
    snapshotConsistency sampleGrid (by decide) (4 / 5) (1 / 100) (1 / 2) 30 maxRand 0 1
      (by decide) (by decide) (by decide) (by decide)
  exact ⟨g', s', sm, c, s2, h1, h2, h3, h4⟩

/-- The neighbour counts on a `5 × 5` grid: a corner, an edge cell and an interior cell. -/
theorem neighborCounts_witness :
    (2 : Int) ≤ forest5.size ∧ (getNeighbors forest5 0 0).length = 3 ∧
      (getNeighbors forest5 0 2).length = 5 ∧ (getNeighbors forest5 3 1).length = 8 := by
  have h := neighborCounts forest5 (by decide)
  exact ⟨by decide, h.1, h.2.1 2 (by decide) (by decide),
    h.2.2 3 1 (by decide) (by decide) (by decide) (by decide)⟩

/-- The initial configuration of the `256 × 256` grid of the simulation (`GRID_SIZE`). -/
theorem initialConfiguration_witness :
    (1 : Int) ≤ 256 ∧
      ∃ g, Grid.create 256 0 maxRand = .ok (g, maxRand) ∧
        getCell g 128 128 = .ok CellType.Burning ∧
        getCell g 64 64 = .ok CellType.DryGrass ∧
        getCell g 192 192 = .ok CellType.DenseTrees := by
  refine ⟨by decide, ?_⟩
  obtain ⟨g, hrun, -, -, -, h3⟩ := initialConfiguration 256 (by decide) maxRand
  obtain ⟨h1, h2, h4, -⟩ := h3 (by decide)
  exact ⟨g, hrun, h1, h2, h4⟩

/-! ## The water loop of `initializeGrid` -/

theorem initializeGrid_numWaterCells (g : Grid) (water_ratio : ℚ) (s : Rand) :
    initializeGrid g water_ratio s =
      match writeCell g.cells (Int.tdiv g.size 2) (Int.tdiv g.size 2) .Burning with
      | .error e => .error e
      | .ok c1 =>
        match writeCell c1 (Int.tdiv g.size 4) (Int.tdiv g.size 4) .DryGrass with
        | .error e => .error e
        | .ok c2 =>
          match writeCell c2 (Int.tdiv (3 * g.size) 4) (Int.tdiv (3 * g.size) 4)
            .DenseTrees with
          | .error e => .error e
          | .ok c3 =>
            match waterLoop g.size (numWaterCells g.size water_ratio).toNat c3 s with
            | .error e => .error e
            | .ok (c4, s1) => .ok ({ g with cells := c4 }, s1) := rfl

theorem drawnPos_inRange {size : Int} (h : 1 ≤ size) (s : Rand) (i : Nat) :
    0 ≤ (drawnPos size s i).1 ∧ (drawnPos size s i).1 < size ∧
      0 ≤ (drawnPos size s i).2 ∧ (drawnPos size s i).2 < size := by
  have hpos : 0 < size := by omega
  simp only [drawnPos]
  rw [Int.tmod_eq_emod (Int.ofNat_nonneg _) (by omega),
    Int.tmod_eq_emod (Int.ofNat_nonneg _) (by omega)]
  exact ⟨Int.emod_nonneg _ (by omega), Int.emod_lt_of_pos _ hpos,
    Int.emod_nonneg _ (by omega), Int.emod_lt_of_pos _ hpos⟩

theorem drawnPos_drop_two (size : Int) (s : Rand) (i : Nat) :
    drawnPos size (s.drop 2) i = drawnPos size s (i + 1) := by
  simp only [drawnPos, Rand.drop]
  have e1 : 2 * i + 2 = 2 * (i + 1) := by omega
  have e2 : 2 * i + 1 + 2 = 2 * (i + 1) + 1 := by omega
  rw [e1, e2]

/-- What the water loop does on an `N × N` cell array with `N = size >= 1`: it never
faults, it makes `2 * n` calls of `rand()` in `n` iterations, and afterwards a cell is
`Water` when its position was drawn in one of the iterations and is unchanged otherwise. -/
theorem waterLoop_spec {size : Int} (h : 1 ≤ size) :
    ∀ (n : Nat) (cs : Cells) (s : Rand), Dim cs size.toNat →
      ∃ cs', waterLoop size n cs s = .ok (cs', s.drop (2 * n)) ∧ Dim cs' size.toNat ∧
        ∀ y x, readCell cs' y x =
          if ∃ i, i < n ∧ drawnPos size s i = (x, y) then .ok CellType.Water
          else readCell cs y x := by
  intro n
  induction n with
  | zero =>
    intro cs s hd
    refine ⟨cs, rfl, hd, ?_⟩
    intro y x
    simp
  | succ n ih =>
    intro cs s hd
    obtain ⟨hx0, hxN, hy0, hyN⟩ := drawnPos_inRange h s 0
    obtain ⟨cs1, hw, hd1, hr1⟩ := writeCell_spec hd CellType.Water hy0 (by omega) hx0 (by omega)
    obtain ⟨cs', hrun, hd', hr'⟩ := ih cs1 (s.drop 2) hd1
    refine ⟨cs', ?_, hd', ?_⟩
    · have hw' : writeCell cs (Int.tmod ((s.out 1 : Nat) : Int) size)
          (Int.tmod ((s.out 0 : Nat) : Int) size) CellType.Water = .ok cs1 := hw
      have hrun' : waterLoop size n cs1 ((s.drop 1).drop 1) = .ok (cs', s.drop (2 * (n + 1))) := by
        rw [Rand.drop_drop, hrun, Rand.drop_drop]
        have e : 2 + 2 * n = 2 * (n + 1) := by omega
        rw [e]
      simp only [waterLoop, rand, Rand.drop]
      simp only [waterLoop, rand, Rand.drop] at hw' hrun'
      simp only [Nat.zero_add] at hw' ⊢
      rw [hw']
      exact hrun'
    · intro y x
      rw [hr' y x, hr1 y x]
      by_cases hlater : ∃ i, i < n ∧ drawnPos size (s.drop 2) i = (x, y)
      · obtain ⟨i, hi, hp⟩ := hlater
        have : ∃ i, i < n + 1 ∧ drawnPos size s i = (x, y) :=
          ⟨i + 1, by omega, by rw [← drawnPos_drop_two]; exact hp⟩
        rw [if_pos ⟨i, hi, hp⟩, if_pos this]
      · rw [if_neg hlater]
        by_cases hfirst : y = (drawnPos size s 0).2 ∧ x = (drawnPos size s 0).1
        · have : ∃ i, i < n + 1 ∧ drawnPos size s i = (x, y) :=
            ⟨0, by omega, by rw [hfirst.1, hfirst.2]⟩
          rw [if_pos hfirst, if_pos this]
        · have : ¬ ∃ i, i < n + 1 ∧ drawnPos size s i = (x, y) := by
            rintro ⟨i, hi, hp⟩
            rcases Nat.eq_zero_or_pos i with rfl | hipos
            · exact hfirst ⟨by rw [hp], by rw [hp]⟩
            · obtain ⟨j, rfl⟩ : ∃ j, i = j + 1 := ⟨i - 1, by omega⟩
              exact hlater ⟨j, by omega, by rw [drawnPos_drop_two]; exact hp⟩
          rw [if_neg hfirst, if_neg this]

/-- The grid built by the constructor, for every `size >= 1`, every `water_ratio` and every
generator: the loop runs `(numWaterCells size water_ratio).toNat` times, a cell whose
position is drawn in one of the iterations is `Water`, and every other cell is what the three
assignments at the start of `initializeGrid` leave. -/
theorem create_spec (size : Int) (h : 1 ≤ size) (water_ratio : ℚ) (s : Rand) :
    ∃ g, Grid.create size water_ratio s =
        .ok (g, s.drop (2 * (numWaterCells size water_ratio).toNat)) ∧
      g.WF ∧ g.size = size ∧
      ∀ x y, 0 ≤ x → x < size → 0 ≤ y → y < size →
        getCell g x y =
          if ∃ i, i < (numWaterCells size water_ratio).toNat ∧ drawnPos size s i = (x, y) then
            .ok CellType.Water
          else .ok
            (if x = 3 * size / 4 ∧ y = 3 * size / 4 then CellType.DenseTrees
             else if x = size / 4 ∧ y = size / 4 then CellType.DryGrass
             else if x = size / 2 ∧ y = size / 2 then CellType.Burning
             else CellType.NormalForest) := by
  have h0 : 0 ≤ size := by omega
  have e2 : Int.tdiv size 2 = size / 2 := Int.tdiv_eq_ediv h0 (by decide)
  have e4 : Int.tdiv size 4 = size / 4 := Int.tdiv_eq_ediv h0 (by decide)
  have e34 : Int.tdiv (3 * size) 4 = 3 * size / 4 := Int.tdiv_eq_ediv (by omega) (by decide)
  have hN : ((size.toNat : Nat) : Int) = size := Int.toNat_of_nonneg h0
  have hd0 := dim_replicate size.toNat CellType.NormalForest
  obtain ⟨c1, hw1, hd1, hr1⟩ := writeCell_spec hd0 (y := size / 2) (x := size / 2)
    CellType.Burning (by omega) (by omega) (by omega) (by omega)
  obtain ⟨c2, hw2, hd2, hr2⟩ := writeCell_spec hd1 (y := size / 4) (x := size / 4)
    CellType.DryGrass (by omega) (by omega) (by omega) (by omega)
  obtain ⟨c3, hw3, hd3, hr3⟩ := writeCell_spec hd2 (y := 3 * size / 4) (x := 3 * size / 4)
    CellType.DenseTrees (by omega) (by omega) (by omega) (by omega)
  obtain ⟨c4, hw4, hd4, hr4⟩ :=
    waterLoop_spec h (numWaterCells size water_ratio).toNat c3 s hd3
  refine ⟨{ size := size, cells := c4 }, ?_, ⟨h0, hd4.1, hd4.2⟩, rfl, ?_⟩
  · have hneg : ¬ size < 0 := by omega
    simp only [Grid.create, hneg, if_false, initializeGrid_numWaterCells, e2, e4, e34, hw1, hw2,
      hw3, hw4]
  · intro x y hx hxN hy hyN
    simp only [getCell, hr4, hr3, hr2, hr1]
    rw [readCell_replicate size.toNat CellType.NormalForest hy (by omega) hx (by omega)]
    split_ifs <;> first | rfl | (exfalso; omega)

/-! ## The number of water draws -/

theorem wrapInt32_sq {size : Int} (h : 1 ≤ size) (h2 : size ≤ 46340) :
    wrapInt32 (size * size) = size * size := by
  have h1 : 0 ≤ size * size := by nlinarith
  have h3 : size * size ≤ 46340 * 46340 := by nlinarith
  unfold wrapInt32
  omega

/-- The conversion of `size * size` to `float` is exact for `size <= 4096`. -/
theorem f32_sq_of_le {size : Int} (h : 1 ≤ size) (h2 : size ≤ 4096) :
    f32 ((size * size : Int) : ℚ) = ((size * size : Int) : ℚ) := by
  rcases (by omega : size ≤ 4095 ∨ size = 4096) with h3 | rfl
  · apply f32_intCast
    have h1 : 0 ≤ size * size := by nlinarith
    have h4 : size * size ≤ 4095 * 4095 := by nlinarith
    rw [abs_of_nonneg h1]
    omega
  · have := f32_of_rep 1 24 (by norm_num) (by norm_num)
    norm_num at this
    norm_num
    exact this

/-- The largest `float` below `2 ^ 31`. -/
theorem f32_below_two_pow_31 : f32 2147483520 = 2147483520 := by
  have := f32_of_rep 16777215 7 (by norm_num) (by norm_num)
  norm_num at this
  exact this

theorem numWaterCells_eq_floor (size : Int) (water_ratio : ℚ) (h : 1 ≤ size)
    (h2 : size ≤ 46340) (hw0 : 0 ≤ water_ratio) (hw1 : water_ratio ≤ 1) :
    numWaterCells size water_ratio =
      ⌊f32 (f32 ((size * size : Int) : ℚ) * water_ratio)⌋ := by
  have h1 : 0 ≤ size * size := by nlinarith
  have h3 : size * size ≤ 46340 * 46340 := by nlinarith
  have hA0 : 0 ≤ f32 ((size * size : Int) : ℚ) := f32_nonneg (by exact_mod_cast h1)
  have hA1 : f32 ((size * size : Int) : ℚ) ≤ 2147483520 := by
    apply f32_le_of_le f32_below_two_pow_31
    have : size * size ≤ 2147483520 := by omega
    exact_mod_cast this
  have hP0 : 0 ≤ f32 ((size * size : Int) : ℚ) * water_ratio := mul_nonneg hA0 hw0
  have hP1 : f32 ((size * size : Int) : ℚ) * water_ratio ≤ 2147483520 := by
    calc f32 ((size * size : Int) : ℚ) * water_ratio
        ≤ f32 ((size * size : Int) : ℚ) * 1 := mul_le_mul_of_nonneg_left hw1 hA0
      _ ≤ 2147483520 := by rw [mul_one]; exact hA1
  rw [numWaterCells, wrapInt32_sq h h2]
  exact truncToInt_of_nonneg (f32_nonneg hP0)
    (lt_of_le_of_lt (f32_le_of_le f32_below_two_pow_31 hP1) (by norm_num))

theorem numWaterCells_two : numWaterCells 2 (7 / 16) = 1 := by
  have e := numWaterCells_eq_floor 2 (7 / 16) (by decide) (by decide) (by norm_num)
    (by norm_num)
  have e4 : f32 (((2 * 2 : Int)) : ℚ) = 4 := by
    have := f32_intCast (n := 4) (by norm_num)
    norm_num at this ⊢
    exact this
  have e74 : f32 (7 / 4) = 7 / 4 := by
    have := f32_of_rep 7 (-2) (by norm_num) (by norm_num)
    norm_num at this
    exact this
  have s1 : (4 : ℚ) * (7 / 16) = 7 / 4 := by norm_num
  rw [e, e4, s1, e74, Int.floor_eq_iff]
  norm_num

/-- The default configuration: `size = 256` and `water_ratio = 0.175f`, the binary32 value
`11744051 * 2 ^ (-26)`. -/
theorem numWaterCells_default : numWaterCells 256 (11744051 / 67108864) = 11468 := by
  have e := numWaterCells_eq_floor 256 (11744051 / 67108864) (by decide) (by decide)
    (by norm_num) (by norm_num)
  have e4 : f32 (((256 * 256 : Int)) : ℚ) = 65536 := by
    have := f32_intCast (n := 65536) (by norm_num)
    norm_num at this ⊢
    exact this
  have ep : f32 (11744051 / 1024) = 11744051 / 1024 := by
    have := f32_of_rep 11744051 (-10) (by norm_num) (by norm_num)
    norm_num at this
    exact this
  have s1 : (65536 : ℚ) * (11744051 / 67108864) = 11744051 / 1024 := by norm_num
  rw [e, e4, s1, ep, Int.floor_eq_iff]
  norm_num

/-- The rounding of the `float` product: for `size = 5` and `water_ratio = 0.04f`, the
binary32 value `10737418 * 2 ^ (-28)`, the exact product is below `1` and the `float` product
is `1`, so that one position is drawn. -/
theorem numWaterCells_five : numWaterCells 5 (10737418 / 268435456) = 1 := by
  have e := numWaterCells_eq_floor 5 (10737418 / 268435456) (by decide) (by decide)
    (by norm_num) (by norm_num)
  have e25 : f32 (((5 * 5 : Int)) : ℚ) = 25 := by
    have := f32_intCast (n := 25) (by norm_num)
    norm_num at this ⊢
    exact this
  have ep : f32 ((25 : ℚ) * (10737418 / 268435456)) = 1 := by
    have := f32_eval (q := (25 : ℚ) * (10737418 / 268435456)) (e := -1) (n := 16777216)
      (by norm_num) (by norm_num [abs_of_pos]) (by norm_num [abs_of_pos])
      (by norm_num [abs_lt])
    rw [this]
    norm_num
  rw [e, e25, ep]
  norm_num

/-- The rounding of `size * size`: for `size = 4097` and `water_ratio = 1` the `int` product
`16785409` lies halfway between two `float` values and is converted to the even one,
`16785408`, which is the number of positions drawn. -/
theorem numWaterCells_4097 : numWaterCells 4097 1 = 16785408 := by
  have e := numWaterCells_eq_floor 4097 1 (by decide) (by decide) (by norm_num) (by norm_num)
  have esq : f32 (((4097 * 4097 : Int)) : ℚ) = 16785408 := by
    have he : f32Exp (16785409 : ℚ) = 24 :=
      f32Exp_eq (by norm_num) (by norm_num [abs_of_pos]) (by norm_num [abs_of_pos])
    have hx : (16785409 : ℚ) / (2 : ℚ) ^ ((24 : Int) - 23) = ((8392704 : Int) : ℚ) + 1 / 2 := by
      norm_num
    have : f32 (16785409 : ℚ) = 16785408 := by
      unfold f32 f32Ulp
      rw [he, hx, roundHalfEven_tie_even (by decide)]
      norm_num
    norm_num
    exact this
  have e2 : f32 ((16785408 : ℚ) * 1) = 16785408 := by
    have := f32_of_rep 8392704 1 (by norm_num) (by norm_num)
    norm_num at this ⊢
    exact this
  rw [e, esq, e2]
  norm_num

/-- A product beyond the range of `int`: for `size = 2` and `water_ratio = 1e10f` the `float`
product is `4e10`, the conversion gives `INT_MIN`, and no position is drawn. -/
theorem numWaterCells_huge : (numWaterCells 2 10000000000).toNat = 0 := by
  have e4 : f32 (((wrapInt32 (2 * 2) : Int)) : ℚ) = 4 := by
    have hw : wrapInt32 (2 * 2) = 4 := by decide
    rw [hw]
    have := f32_intCast (n := 4) (by norm_num)
    norm_num at this ⊢
    exact this
  have ep : f32 ((4 : ℚ) * 10000000000) = 40000000000 := by
    have := f32_of_rep 9765625 12 (by norm_num) (by norm_num)
    norm_num at this ⊢
    exact this
  have hf : ⌊(40000000000 : ℚ)⌋ = 40000000000 := by
    rw [Int.floor_eq_iff]
    norm_num
  have : numWaterCells 2 10000000000 = -2147483648 := by
    simp only [numWaterCells, e4, ep, truncToInt]
    rw [if_pos (by norm_num : (0 : ℚ) ≤ 40000000000), hf]
    rw [if_neg (by omega)]
  rw [this]
  rfl

/-- C11, as stated, fails: the count is truncated, not rounded.  For `size = 2` and
`water_ratio = 0.4375` the product is `1.75`, which rounds to `2`, and the constructor makes
two calls of `rand()`, one position, so that the next call is call number `2`; for the
default `size = 256` and `water_ratio = 0.175f` the product `11468.7998046875` rounds to
`11469` and the loop runs `11468` times. -/
theorem water_count_truncates :
    round (((2 : Int) : ℚ) * ((2 : Int) : ℚ) * (7 / 16)) = 2 ∧
      (∃ g s', Grid.create 2 (7 / 16) countRand = .ok (g, s') ∧ (rand s').1 = 2 * 1) ∧
      round (((256 : Int) : ℚ) * ((256 : Int) : ℚ) * (11744051 / 67108864)) = 11469 ∧
      (numWaterCells 256 (11744051 / 67108864)).toNat = 11468 := by
  refine ⟨?_, ?_, ?_, ?_⟩
  · rw [round_eq, Int.floor_eq_iff]
    norm_num
  · obtain ⟨g, hrun, -⟩ := create_spec 2 (by decide) (7 / 16) countRand
    rw [numWaterCells_two] at hrun
    exact ⟨g, _, hrun, by decide⟩
  · rw [round_eq, Int.floor_eq_iff]
    norm_num
  · rw [numWaterCells_default]
    rfl

/-- C11 (water draw count), amended.  For every `size >= 1`, every `water_ratio` in `[0, 1]`
and every generator, the constructor succeeds and its loop draws exactly
`n = max(0, static_cast<int>(size * size * water_ratio))` positions, with `2 * n` calls of
`rand()`: each drawn position `(x, y)` has `0 <= x, y < size` and is `Water` in the grid.  The
count is not rounded to the nearest integer: for `size <= 46340` (so that the `int` product
`size * size` does not overflow) it is the floor of the `float` product, in which
`size * size` is first rounded to `float` and the product is rounded to `float` again; for
`size <= 4096` the first of these roundings is exact. -/
theorem waterDrawCount (size : Int) (h : 1 ≤ size) (water_ratio : ℚ)
    (hw0 : 0 ≤ water_ratio) (hw1 : water_ratio ≤ 1) (s : Rand) :
    (∃ g, Grid.create size water_ratio s =
        .ok (g, s.drop (2 * (numWaterCells size water_ratio).toNat)) ∧
      ∀ i, i < (numWaterCells size water_ratio).toNat →
        0 ≤ (drawnPos size s i).1 ∧ (drawnPos size s i).1 < size ∧
        0 ≤ (drawnPos size s i).2 ∧ (drawnPos size s i).2 < size ∧
        getCell g (drawnPos size s i).1 (drawnPos size s i).2 = .ok CellType.Water) ∧
    (size ≤ 46340 →
      numWaterCells size water_ratio =
        ⌊f32 (f32 ((size * size : Int) : ℚ) * water_ratio)⌋) ∧
    (size ≤ 4096 →
      numWaterCells size water_ratio = ⌊f32 (((size * size : Int) : ℚ) * water_ratio)⌋) := by
  refine ⟨?_, fun h2 => numWaterCells_eq_floor size water_ratio h h2 hw0 hw1, ?_⟩
  · obtain ⟨g, hrun, -, -, hcells⟩ := create_spec size h water_ratio s
    refine ⟨g, hrun, ?_⟩
    intro i hi
    obtain ⟨h1, h2, h3, h4⟩ := drawnPos_inRange h s i
    refine ⟨h1, h2, h3, h4, ?_⟩
    rw [hcells _ _ h1 h2 h3 h4, if_pos ⟨i, hi, rfl⟩]
  · intro h2
    rw [numWaterCells_eq_floor size water_ratio h (by omega) hw0 hw1, f32_sq_of_le h h2]

/-- The water draw count for the default configuration, `size = 256` and
`water_ratio = 0.175f`: `11468` positions are drawn, with `22936` calls of `rand()`. -/
theorem waterDrawCount_witness :
    (1 : Int) ≤ 256 ∧ (0 : ℚ) ≤ 11744051 / 67108864 ∧ (11744051 / 67108864 : ℚ) ≤ 1 ∧
      (∃ g, Grid.create 256 (11744051 / 67108864) countRand =
        .ok (g, countRand.drop (2 * (numWaterCells 256 (11744051 / 67108864)).toNat))) ∧
      numWaterCells 256 (11744051 / 67108864) =
        ⌊f32 (f32 (((256 * 256 : Int)) : ℚ) * (11744051 / 67108864))⌋ := by
  obtain ⟨⟨g, hrun, -⟩, hfloor, -⟩ :=
    waterDrawCount 256 (by decide) (11744051 / 67108864) (by norm_num) (by norm_num) countRand
  exact ⟨by decide, by norm_num, by norm_num, ⟨g, hrun⟩, hfloor (by decide)⟩

/-! ## Construction with a non-positive size, and queries out of range -/

/-- C12, as stated, fails at `size = 0`: the constructor builds an empty vector and the first
assignment of `initializeGrid` indexes it at `[0][0]`, out of range.  That is undefined
behaviour, not an error that the constructor reports. -/
theorem create_zero_no_error :
    Grid.create 0 (7 / 40) maxRand = .error .OutOfRange ∧
      ¬ ∃ e, Grid.create 0 (7 / 40) maxRand = .error e ∧ e.isException = true := by
  have h : Grid.create 0 (7 / 40) maxRand = .error .OutOfRange := by
    simp [Grid.create, initializeGrid, writeCell]
  refine ⟨h, ?_⟩
  rintro ⟨e, he, hexc⟩
  rw [h] at he
  simp only [Except.error.injEq] at he
  rw [← he] at hexc
  simp [Fault.isException] at hexc

/-- C12 (construction with a non-positive size), amended.  For every `size <= 0`, every
`water_ratio` and every generator the constructor returns no grid.  For `size < 0` it fails
with the exception `std::length_error` of the `std::vector` constructor; for `size = 0` it
raises no error: `initializeGrid` indexes the empty vector out of range. -/
theorem create_nonpositive (size : Int) (h : size ≤ 0) (water_ratio : ℚ) (s : Rand) :
    (∀ g s', Grid.create size water_ratio s ≠ .ok (g, s')) ∧
    (size < 0 → Grid.create size water_ratio s = .error .LengthError ∧
      Fault.LengthError.isException = true) ∧
    (size = 0 → Grid.create size water_ratio s = .error .OutOfRange ∧
      Fault.OutOfRange.isException = false) := by
  have hneg : size < 0 → Grid.create size water_ratio s = .error .LengthError := by
    intro hlt
    simp [Grid.create, hlt]
  have hzero : size = 0 → Grid.create size water_ratio s = .error .OutOfRange := by
    rintro rfl
    simp [Grid.create, initializeGrid, writeCell]
  refine ⟨?_, fun hlt => ⟨hneg hlt, rfl⟩, fun h0 => ⟨hzero h0, rfl⟩⟩
  intro g s' hok
  rcases lt_or_eq_of_le h with hlt | h0
  · rw [hneg hlt] at hok
    simp at hok
  · rw [hzero h0] at hok
    simp at hok

/-- Construction with `size = -5` fails with `std::length_error`. -/
theorem create_nonpositive_witness :
    (-5 : Int) ≤ 0 ∧ Grid.create (-5) (7 / 40) maxRand = .error .LengthError :=
  ⟨by decide, ((create_nonpositive (-5) (by decide) (7 / 40) maxRand).2.1 (by decide)).1⟩

theorem readCell_error_or_ok (cs : Cells) (y x : Int) :
    readCell cs y x = .error .OutOfRange ∨ ∃ v, readCell cs y x = .ok v := by
  unfold readCell
  split_ifs
  · cases cs[y.toNat]? with
    | none => exact Or.inl rfl
    | some row =>
      cases hv : row[x.toNat]? with
      | none => left; simp [hv]
      | some v => right; exact ⟨v, by simp [hv]⟩
  · exact Or.inl rfl

/-- C13, as stated, fails outside the grid: `getCell(2, 0)` on a `2 × 2` grid is the unchecked
access `cells[0][2]`, out of range.  That is undefined behaviour, not an error that the query
reports. -/
theorem getCell_outside_no_error :
    sampleGrid.WF ∧ getCell sampleGrid 2 0 = .error .OutOfRange ∧
      ¬ ∃ e, getCell sampleGrid 2 0 = .error e ∧ e.isException = true := by
  have h : getCell sampleGrid 2 0 = .error .OutOfRange := rfl
  refine ⟨by decide, h, ?_⟩
  rintro ⟨e, he, hexc⟩
  rw [h] at he
  simp only [Except.error.injEq] at he
  rw [← he] at hexc
  simp [Fault.isException] at hexc

/-- C13 (cell query bounds), amended.  On a well-formed `N × N` grid, `getCell(x, y)` returns
the stored state of row `y`, column `x` for every `0 <= x, y < N`.  For every `(x, y)` with
`x < 0`, `y < 0`, `x >= N` or `y >= N` the query checks nothing: the access `cells[y][x]` is
out of range, and no error is raised. -/
theorem cellQueryBounds (g : Grid) (hwf : g.WF) (x y : Int) :
    (0 ≤ x → x < g.size → 0 ≤ y → y < g.size →
      ∃ row v, g.cells[y.toNat]? = some row ∧ row[x.toNat]? = some v ∧
        getCell g x y = .ok v) ∧
    ((x < 0 ∨ y < 0 ∨ g.size ≤ x ∨ g.size ≤ y) →
      getCell g x y = .error .OutOfRange ∧ Fault.OutOfRange.isException = false) := by
  constructor
  · intro hx hxN hy hyN
    have hsz := hwf.1
    obtain ⟨v, hv⟩ := readCell_inRange hwf.dim hy (by omega) hx (by omega)
    have hv' := hv
    unfold readCell at hv'
    rw [if_pos ⟨hy, hx⟩] at hv'
    cases hrow : g.cells[y.toNat]? with
    | none => simp [hrow] at hv'
    | some row =>
      simp only [hrow] at hv'
      cases hcell : row[x.toNat]? with
      | none => simp [hcell] at hv'
      | some w =>
        simp only [hcell, Except.ok.injEq] at hv'
        subst hv'
        exact ⟨row, w, rfl, hcell, hv⟩
  · intro hout
    refine ⟨?_, rfl⟩
    rcases readCell_error_or_ok g.cells y x with herr | ⟨v, hv⟩
    · exact herr
    · have := getCell_ok_range hwf hv
      omega

/-- The cell query on the sample grid: inside at `(1, 0)`, outside at `(2, 0)`. -/
theorem cellQueryBounds_witness :
    sampleGrid.WF ∧ (∃ v, getCell sampleGrid 1 0 = .ok v) ∧
      getCell sampleGrid 2 0 = .error .OutOfRange := by
  have h := cellQueryBounds sampleGrid (by decide) 1 0
  have h2 := cellQueryBounds sampleGrid (by decide) 2 0
  obtain ⟨row, v, -, -, hv⟩ := h.1 (by decide) (by decide) (by decide) (by decide)
  exact ⟨by decide, ⟨v, hv⟩, (h2.2 (Or.inr (Or.inr (Or.inl (by decide))))).1⟩

/-! ## The Moore neighbourhood -/

theorem neighborStep_eq_append (size x y dx dy : Int) (acc : List (Int × Int))
    (h : ¬ (dx = 0 ∧ dy = 0)) :
    neighborStep size x y dx acc dy =
      acc ++ [(x + dx, y + dy)].filter
        (fun q => decide (0 ≤ q.1 ∧ q.1 < size ∧ 0 ≤ q.2 ∧ q.2 < size)) := by
  simp only [neighborStep, if_neg h]
  by_cases hr : x + dx ≥ 0 ∧ x + dx < size ∧ y + dy ≥ 0 ∧ y + dy < size
  · have hr' : 0 ≤ x + dx ∧ x + dx < size ∧ 0 ≤ y + dy ∧ y + dy < size := hr
    simp [hr, hr']
  · have hr' : ¬ (0 ≤ x + dx ∧ x + dx < size ∧ 0 ≤ y + dy ∧ y + dy < size) := hr
    simp [hr, hr']

theorem neighborStep_zero (size x y : Int) (acc : List (Int × Int)) :
    neighborStep size x y 0 acc 0 = acc := by
  simp [neighborStep]

theorem getNeighbors_eq_filter (g : Grid) (x y : Int) :
    getNeighbors g x y =
      (mooreOffsets.map (fun d => (x + d.1, y + d.2))).filter
        (fun q => decide (0 ≤ q.1 ∧ q.1 < g.size ∧ 0 ≤ q.2 ∧ q.2 < g.size)) := by
  simp only [getNeighbors, List.foldl, neighborStep_zero]
  rw [neighborStep_eq_append _ _ _ _ _ _ (by decide),
    neighborStep_eq_append _ _ _ _ _ _ (by decide),
    neighborStep_eq_append _ _ _ _ _ _ (by decide),
    neighborStep_eq_append _ _ _ _ _ _ (by decide),
    neighborStep_eq_append _ _ _ _ _ _ (by decide),
    neighborStep_eq_append _ _ _ _ _ _ (by decide),
    neighborStep_eq_append _ _ _ _ _ _ (by decide),
    neighborStep_eq_append _ _ _ _ _ _ (by decide)]
  simp only [mooreOffsets, List.map, ← List.filter_append, List.nil_append, List.append_assoc,
    List.singleton_append]
  rfl

theorem mem_mooreOffsets (dx dy : Int) :
    (dx, dy) ∈ mooreOffsets ↔ max |dx| |dy| = 1 := by
  simp only [mooreOffsets, List.mem_cons, Prod.mk.injEq, List.mem_singleton, List.not_mem_nil,
    or_false]
  rcases abs_cases dx with ⟨h1, h2⟩ | ⟨h1, h2⟩ <;>
    rcases abs_cases dy with ⟨h3, h4⟩ | ⟨h3, h4⟩ <;>
    rw [h1, h3] <;> omega

theorem mem_getNeighbors_iff (g : Grid) (x y nx ny : Int) :
    (nx, ny) ∈ getNeighbors g x y ↔
      (0 ≤ nx ∧ nx < g.size ∧ 0 ≤ ny ∧ ny < g.size ∧ max |nx - x| |ny - y| = 1) := by
  rw [getNeighbors_eq_filter, List.mem_filter, List.mem_map, decide_eq_true_eq]
  constructor
  · rintro ⟨⟨⟨dx, dy⟩, hd, heq⟩, hr⟩
    simp only [Prod.mk.injEq] at heq
    obtain ⟨rfl, rfl⟩ := heq
    refine ⟨hr.1, hr.2.1, hr.2.2.1, hr.2.2.2, ?_⟩
    have := (mem_mooreOffsets dx dy).mp hd
    simpa using this
  · rintro ⟨h1, h2, h3, h4, hm⟩
    refine ⟨⟨(nx - x, ny - y), (mem_mooreOffsets _ _).mpr hm, ?_⟩, h1, h2, h3, h4⟩
    simp

/-- C14 (Moore neighbourhood without wraparound).  For every grid size and every `(x, y)`,
`getNeighbors(x, y)` is the list of the positions `(x + dx, y + dy)`, for the eight offsets in
the order `dx = -1, 0, 1` outer and `dy = -1, 0, 1` inner, that lie in the grid; it has no
duplicates, and a position `(nx, ny)` is in it exactly when `0 <= nx, ny < N` and
`max(|nx - x|, |ny - y|) = 1`, so that it never holds `(x, y)` itself. -/
theorem mooreNeighborhood (g : Grid) (x y : Int) :
    getNeighbors g x y =
      (mooreOffsets.map (fun d => (x + d.1, y + d.2))).filter
        (fun q => decide (0 ≤ q.1 ∧ q.1 < g.size ∧ 0 ≤ q.2 ∧ q.2 < g.size)) ∧
    (getNeighbors g x y).Nodup ∧
    (∀ nx ny, (nx, ny) ∈ getNeighbors g x y ↔
      (0 ≤ nx ∧ nx < g.size ∧ 0 ≤ ny ∧ ny < g.size ∧ max |nx - x| |ny - y| = 1)) ∧
    (x, y) ∉ getNeighbors g x y := by
  refine ⟨getNeighbors_eq_filter g x y, ?_, mem_getNeighbors_iff g x y, ?_⟩
  · rw [getNeighbors_eq_filter]
    apply List.Nodup.filter
    simp [mooreOffsets]
  · rw [mem_getNeighbors_iff]
    simp

/-! ## Spontaneous ignition -/

theorem spreadLoop_no_burning (g : Grid) (x y : Int) (current : CellType)
    (p w_speed w_direction : ℚ) :
    ∀ (nbs : List (Int × Int)) (s : Rand),
      (∀ nb ∈ nbs, ∃ v, readCell g.cells nb.2 nb.1 = .ok v ∧ v ≠ CellType.Burning) →
      spreadLoop g x y current p w_speed w_direction nbs s = .ok (false, s) := by
  intro nbs
  induction nbs with
  | nil => intro s _; rfl
  | cons nb rest ih =>
    intro s hall
    obtain ⟨v, hv, hne⟩ := hall nb (List.mem_cons_self _ _)
    simp only [spreadLoop, hv, hne, if_false]
    exact ih s (fun nb' hm => hall nb' (List.mem_cons_of_mem _ hm))

/-- C15 (spontaneous ignition only).  On a well-formed grid, for all parameters and every
generator, a `NormalForest`, `DryGrass` or `DenseTrees` cell none of whose in-bounds Moore
neighbours is `Burning` makes exactly one call of `rand()` in `updateCell`, and with the draw
`r` of that call it becomes `Burning` if `r < pstart` and keeps its state otherwise.  With
`pstart = 0` it keeps its state, in `updateCell` and in every `update`. -/
theorem spontaneousIgnitionOnly (g : Grid) (hwf : g.WF) (x y : Int) (current : CellType)
    (p pstart w_speed w_direction : ℚ) (s : Rand)
    (hcur : getCell g x y = .ok current)
    (hveg : current = CellType.NormalForest ∨ current = CellType.DryGrass ∨
      current = CellType.DenseTrees)
    (hnb : ∀ nb ∈ getNeighbors g x y, getCell g nb.1 nb.2 ≠ .ok CellType.Burning) :
    updateCell g x y p pstart w_speed w_direction s =
      .ok (if (randUnit s).1 < pstart then CellType.Burning else current, (rand s).2) ∧
    updateCell g x y p 0 w_speed w_direction s = .ok (current, (rand s).2) ∧
    ∀ t : Rand, ∃ g' t', update g p 0 w_speed w_direction t = .ok (g', t') ∧
      getCell g' x y = .ok current := by
  have hsz := hwf.1
  have hloop : ∀ t : Rand, spreadLoop g x y current p w_speed w_direction
      (getNeighbors g x y) t = .ok (false, t) := by
    intro t
    apply spreadLoop_no_burning
    intro nb hm
    obtain ⟨h1, h2, h3, h4⟩ := getNeighbors_inRange hm
    obtain ⟨v, hv⟩ := readCell_inRange hwf.dim h3 (by omega) h1 (by omega)
    refine ⟨v, hv, ?_⟩
    rintro rfl
    exact hnb nb hm hv
  have h1 : current ≠ CellType.Burning := by rcases hveg with rfl | rfl | rfl <;> decide
  have h2 : ¬ (current = CellType.Burned ∨ current = CellType.Water) := by
    rcases hveg with rfl | rfl | rfl <;> decide
  have hcur' : readCell g.cells y x = .ok current := hcur
  have hgen : ∀ (q : ℚ) (t : Rand), updateCell g x y p q w_speed w_direction t =
      .ok (if (randUnit t).1 < q then CellType.Burning else current, (rand t).2) := by
    intro q t
    simp only [updateCell, hcur', h1, h2, if_false, hloop t]
    split_ifs <;> rfl
  have hzero : ∀ t : Rand, updateCell g x y p 0 w_speed w_direction t =
      .ok (current, (rand t).2) := by
    intro t
    rw [hgen 0 t, if_neg (not_lt.mpr (randUnit_nonneg t))]
  refine ⟨hgen pstart s, hzero s, ?_⟩
  intro t
  obtain ⟨hx, hxN, hy, hyN⟩ := getCell_ok_range hwf hcur
  obtain ⟨g', k, hrun, -, -, hcells⟩ := update_spec hwf p 0 w_speed w_direction t
  obtain ⟨j, c, s2, -, hcell, hread⟩ := hcells x y hx hxN hy hyN
  rw [hzero] at hcell
  simp only [Except.ok.injEq, Prod.mk.injEq] at hcell
  exact ⟨g', _, hrun, by rw [hread, ← hcell.1]⟩

/-- The conversion of `2 ^ 30 - 1` to `float` rounds up to `2 ^ 30`. -/
theorem f32_halfRand : f32 (1073741823 : ℚ) = 1073741824 := by
  have := f32_eval (q := 1073741823) (e := 29) (n := 16777216) (by norm_num)
    (by norm_num [abs_of_pos]) (by norm_num [abs_of_pos]) (by norm_num [abs_lt])
  rw [this]
  norm_num

/-- The draw for `rand() = 2 ^ 30 - 1` is exactly `0.5f`: both conversions to `float` round
up, to `2 ^ 30` and `2 ^ 31`. -/
theorem randUnit_halfRand : (randUnit halfRand).1 = 1 / 2 := by
  have e12 : f32 (1 / 2) = 1 / 2 := by
    have := f32_of_rep 1 (-1) (by norm_num) (by norm_num)
    norm_num at this
    exact this
  have s1 : (1073741824 : ℚ) / 2147483648 = 1 / 2 := by norm_num
  simp only [randUnit, rand, halfRand, constRand, glibcRandMax, Nat.cast_ofNat, f32_halfRand,
    f32_glibcRandMax, s1, e12]

/-- Spontaneous ignition on the `1 × 1` forest with `pstart = 0.5` and `rand() = 2 ^ 30 - 1`:
the draw is `0.5f`, which is not below `pstart`, and the cell stays `NormalForest`. -/
theorem spontaneousIgnitionOnly_witness :
    forest1.WF ∧ getCell forest1 0 0 = .ok CellType.NormalForest ∧
      updateCell forest1 0 0 (3 / 4) (1 / 2) (1 / 2) 30 halfRand =
        .ok (CellType.NormalForest, (rand halfRand).2) := by
  refine ⟨by decide, rfl, ?_⟩
  have h := (spontaneousIgnitionOnly forest1 (by decide) 0 0 CellType.NormalForest (3 / 4)
    (1 / 2) (1 / 2) 30 halfRand rfl (Or.inl rfl) (by
      intro nb hm
      have hl : getNeighbors forest1 0 0 = [] := by decide
      rw [hl] at hm
      simp at hm)).1
  rw [h, randUnit_halfRand, if_neg (lt_irrefl _)]

/-! ## The transition table -/

theorem updateCell_transition {g : Grid} {x y : Int} {current c : CellType} {s s' : Rand}
    (p pstart w_speed w_direction : ℚ)
    (hcur : readCell g.cells y x = .ok current)
    (hrun : updateCell g x y p pstart w_speed w_direction s = .ok (c, s')) :
    (current, c) ∈
      [(CellType.NormalForest, CellType.NormalForest), (CellType.NormalForest, CellType.Burning),
       (CellType.DryGrass, CellType.DryGrass), (CellType.DryGrass, CellType.Burning),
       (CellType.DenseTrees, CellType.DenseTrees), (CellType.DenseTrees, CellType.Burning),
       (CellType.Water, CellType.Water), (CellType.Burning, CellType.Burned),
       (CellType.Burned, CellType.Burned)] := by
  simp only [updateCell, hcur] at hrun
  have key : c = CellType.Burning ∨ c = current ∨
      (current = CellType.Burning ∧ c = CellType.Burned) := by
    split_ifs at hrun with h1 h2
    · simp only [Except.ok.injEq, Prod.mk.injEq] at hrun
      exact Or.inr (Or.inr ⟨h1, hrun.1.symm⟩)
    · simp only [Except.ok.injEq, Prod.mk.injEq] at hrun
      exact Or.inr (Or.inl hrun.1.symm)
    · split at hrun
      · simp at hrun
      · simp only [Except.ok.injEq, Prod.mk.injEq] at hrun
        exact Or.inl hrun.1.symm
      · split_ifs at hrun
        · simp only [Except.ok.injEq, Prod.mk.injEq] at hrun
          exact Or.inl hrun.1.symm
        · simp only [Except.ok.injEq, Prod.mk.injEq] at hrun
          exact Or.inr (Or.inl hrun.1.symm)
  have hb : current = CellType.Burning → c = CellType.Burned := by
    intro hb
    rw [hb] at hrun
    simp only [if_true, Except.ok.injEq, Prod.mk.injEq] at hrun
    exact hrun.1.symm
  have hw : current = CellType.Burned ∨ current = CellType.Water → c = current := by
    intro hw
    have hnb : current ≠ CellType.Burning := by rcases hw with rfl | rfl <;> decide
    rw [if_neg hnb, if_pos hw] at hrun
    simp only [Except.ok.injEq, Prod.mk.injEq] at hrun
    exact hrun.1.symm
  cases current
  case Burning => rw [hb rfl]; decide
  case Burned => rw [hw (Or.inl rfl)]; decide
  case Water => rw [hw (Or.inr rfl)]; decide
  all_goals
    rcases key with rfl | rfl | ⟨h, -⟩
    · decide
    · decide
    · cases h

/-- C17 (closed transition table).  On every well-formed grid, for all parameters and every
generator, `update` returns a well-formed grid of the same size, and for every cell the pair
of its states before and after is one of `NormalForest → NormalForest`,
`NormalForest → Burning`, `DryGrass → DryGrass`, `DryGrass → Burning`,
`DenseTrees → DenseTrees`, `DenseTrees → Burning`, `Water → Water`, `Burning → Burned`,
`Burned → Burned`.  So a cell is `Water` after only if it was before, a cell is `Burned` after
exactly when it was `Burning` or `Burned` before, and a cell that is `NormalForest`,
`DryGrass` or `DenseTrees` after had that same state before. -/
theorem closedTransitionTable (g : Grid) (hwf : g.WF) (p pstart w_speed w_direction : ℚ)
    (s : Rand) :
    ∃ g' s', update g p pstart w_speed w_direction s = .ok (g', s') ∧
      g'.WF ∧ g'.size = g.size ∧
      ∀ x y, 0 ≤ x → x < g.size → 0 ≤ y → y < g.size →
        ∃ before after, getCell g x y = .ok before ∧ getCell g' x y = .ok after ∧
          (before, after) ∈
            [(CellType.NormalForest, CellType.NormalForest),
             (CellType.NormalForest, CellType.Burning),
             (CellType.DryGrass, CellType.DryGrass), (CellType.DryGrass, CellType.Burning),
             (CellType.DenseTrees, CellType.DenseTrees),
             (CellType.DenseTrees, CellType.Burning),
             (CellType.Water, CellType.Water), (CellType.Burning, CellType.Burned),
             (CellType.Burned, CellType.Burned)] ∧
          (after = CellType.Water → before = CellType.Water) ∧
          (after = CellType.Burned ↔
            before = CellType.Burning ∨ before = CellType.Burned) ∧
          (after = CellType.NormalForest ∨ after = CellType.DryGrass ∨
            after = CellType.DenseTrees → before = after) := by
  have hsz := hwf.1
  obtain ⟨g', k, hrun, hwf', hsize, hcells⟩ := update_spec hwf p pstart w_speed w_direction s
  refine ⟨g', _, hrun, hwf', hsize, ?_⟩
  intro x y hx hxN hy hyN
  obtain ⟨before, hbefore⟩ := readCell_inRange hwf.dim hy (by omega) hx (by omega)
  obtain ⟨j, after, s2, -, hcell, hread⟩ := hcells x y hx hxN hy hyN
  have htable := updateCell_transition p pstart w_speed w_direction hbefore hcell
  refine ⟨before, after, hbefore, hread, htable, ?_, ?_, ?_⟩
  · revert htable
    cases before <;> cases after <;> decide
  · revert htable
    cases before <;> cases after <;> decide
  · revert htable
    cases before <;> cases after <;> decide

/-- The transition table on the sample grid, at the `Burning` cell `(1, 0)`. -/
theorem closedTransitionTable_witness :
    sampleGrid.WF ∧
      ∃ g' s', update sampleGrid (4 / 5) (1 / 100) (1 / 2) 30 maxRand = .ok (g', s') ∧
        g'.WF ∧ g'.size = 2 ∧ getCell g' 1 0 = .ok CellType.Burned := by
  refine ⟨by decide, ?_⟩
  obtain ⟨g', s', hrun, hwf', hsize, hcells⟩ :=
    closedTransitionTable sampleGrid (by decide) (4 / 5) (1 / 100) (1 / 2) 30 maxRand
  obtain ⟨before, after, hb, ha, -, -, hburned, -⟩ :=
    hcells 1 0 (by decide) (by decide) (by decide) (by decide)
  have hb' : before = CellType.Burning := by
    have h : getCell sampleGrid 1 0 = .ok CellType.Burning := rfl
    rw [h] at hb
    simp only [Except.ok.injEq] at hb
    exact hb.symm
  exact ⟨g', s', hrun, hwf', hsize, by rw [ha, hburned.mpr (Or.inl hb')]⟩

/-! ## Water cells and drawn positions -/

theorem count_set_le (row : List CellType) (j : Nat) (v w : CellType) :
    (row.set j v).count w ≤ row.count w + 1 := by
  induction row generalizing j with
  | nil => simp
  | cons a t ih =>
    cases j with
    | zero =>
      simp only [List.set_cons_zero, List.count_cons]
      split_ifs <;> omega
    | succ j =>
      simp only [List.set_cons_succ, List.count_cons]
      have := ih j
      omega

theorem countWater_set_le (cs : Cells) (i : Nat) (row row' : List CellType)
    (h : cs[i]? = some row)
    (hle : row'.count CellType.Water ≤ row.count CellType.Water + 1) :
    countWater (cs.set i row') ≤ countWater cs + 1 := by
  induction cs generalizing i with
  | nil => simp at h
  | cons a t ih =>
    cases i with
    | zero =>
      simp only [List.getElem?_cons_zero, Option.some.injEq] at h
      subst h
      simp only [countWater, List.set_cons_zero, List.map_cons, List.sum_cons]
      omega
    | succ i =>
      simp only [List.getElem?_cons_succ] at h
      have := ih i h
      simp only [countWater, List.set_cons_succ, List.map_cons, List.sum_cons] at this ⊢
      omega

theorem writeCell_countWater {cs cs' : Cells} {y x : Int} {v : CellType}
    (h : writeCell cs y x v = .ok cs') : countWater cs' ≤ countWater cs + 1 := by
  unfold writeCell at h
  split_ifs at h with h0
  cases hrow : cs[y.toNat]? with
  | none => simp [hrow] at h
  | some row =>
    simp only [hrow] at h
    split_ifs at h
    simp only [Except.ok.injEq] at h
    rw [← h]
    exact countWater_set_le cs y.toNat row _ hrow (count_set_le row x.toNat v CellType.Water)

theorem waterLoop_countWater (size : Int) :
    ∀ (n : Nat) (cs : Cells) (s : Rand) (cs' : Cells) (s' : Rand),
      waterLoop size n cs s = .ok (cs', s') → countWater cs' ≤ countWater cs + n := by
  intro n
  induction n with
  | zero =>
    intro cs s cs' s' h
    simp only [waterLoop, Except.ok.injEq, Prod.mk.injEq] at h
    rw [← h.1]
    omega
  | succ n ih =>
    intro cs s cs' s' h
    simp only [waterLoop] at h
    split at h
    · simp at h
    · rename_i cs1 hw
      have h1 := writeCell_countWater hw
      have h2 := ih _ _ _ _ h
      omega

theorem countWater_eq_zero {cs : Cells}
    (h : ∀ y x, readCell cs y x ≠ .ok CellType.Water) : countWater cs = 0 := by
  unfold countWater
  apply List.sum_eq_zero
  intro k hk
  obtain ⟨row, hrow, rfl⟩ := List.mem_map.mp hk
  rw [List.count_eq_zero]
  intro hmem
  obtain ⟨i, hi, hrowi⟩ := List.getElem_of_mem hrow
  obtain ⟨j, hj, hcell⟩ := List.getElem_of_mem hmem
  apply h (i : Int) (j : Int)
  have e1 : ((i : Int)).toNat = i := Int.toNat_ofNat i
  have e2 : ((j : Int)).toNat = j := Int.toNat_ofNat j
  simp [readCell, e1, e2, List.getElem?_eq_getElem hi, hrowi, List.getElem?_eq_getElem hj,
    hcell]

/-- The constructor's grid has at most as many `Water` cells as its loop has iterations. -/
theorem create_countWater (size : Int) (h : 1 ≤ size) (water_ratio : ℚ) (s : Rand)
    {g : Grid} {s' : Rand} (hrun : Grid.create size water_ratio s = .ok (g, s')) :
    countWater g.cells ≤ (numWaterCells size water_ratio).toNat := by
  have h0 : 0 ≤ size := by omega
  have e2 : Int.tdiv size 2 = size / 2 := Int.tdiv_eq_ediv h0 (by decide)
  have e4 : Int.tdiv size 4 = size / 4 := Int.tdiv_eq_ediv h0 (by decide)
  have e34 : Int.tdiv (3 * size) 4 = 3 * size / 4 := Int.tdiv_eq_ediv (by omega) (by decide)
  have hN : ((size.toNat : Nat) : Int) = size := Int.toNat_of_nonneg h0
  have hd0 := dim_replicate size.toNat CellType.NormalForest
  obtain ⟨c1, hw1, hd1, hr1⟩ := writeCell_spec hd0 (y := size / 2) (x := size / 2)
    CellType.Burning (by omega) (by omega) (by omega) (by omega)
  obtain ⟨c2, hw2, hd2, hr2⟩ := writeCell_spec hd1 (y := size / 4) (x := size / 4)
    CellType.DryGrass (by omega) (by omega) (by omega) (by omega)
  obtain ⟨c3, hw3, hd3, hr3⟩ := writeCell_spec hd2 (y := 3 * size / 4) (x := 3 * size / 4)
    CellType.DenseTrees (by omega) (by omega) (by omega) (by omega)
  obtain ⟨c4, hw4, -, -⟩ :=
    waterLoop_spec h (numWaterCells size water_ratio).toNat c3 s hd3
  have hneg : ¬ size < 0 := by omega
  simp only [Grid.create, hneg, if_false, initializeGrid_numWaterCells, e2, e4, e34, hw1, hw2,
    hw3, hw4, Except.ok.injEq, Prod.mk.injEq] at hrun
  rw [← hrun.1]
  have hzero : countWater c3 = 0 := by
    apply countWater_eq_zero
    intro y x hW
    rw [hr3, hr2, hr1] at hW
    split_ifs at hW
    · simp at hW
    · simp at hW
    · simp at hW
    · obtain ⟨hy0, hyN, hx0, hxN⟩ := readCell_ok_range hd0 hW
      rw [readCell_replicate size.toNat CellType.NormalForest hy0 hyN hx0 hxN] at hW
      simp at hW
  have := waterLoop_countWater size _ c3 s c4 _ hw4
  simp only at this ⊢
  omega

/-- C16 (water overwrites).  For every `size >= 1`, every `water_ratio` and every generator,
in the grid that the constructor returns a cell is `Water` if and only if its position was
drawn in one of the `n` iterations of the loop of `initializeGrid`.  So the grid has at most
`n` `Water` cells, and each of the cells `(size/2, size/2)`, `(size/4, size/4)` and
`(3*size/4, 3*size/4)` is `Water` when its position was drawn. -/
theorem waterOverwrites (size : Int) (h : 1 ≤ size) (water_ratio : ℚ) (s : Rand) :
    ∃ g n, n = (numWaterCells size water_ratio).toNat ∧
      Grid.create size water_ratio s = .ok (g, s.drop (2 * n)) ∧
      (∀ x y, 0 ≤ x → x < size → 0 ≤ y → y < size →
        (getCell g x y = .ok CellType.Water ↔ ∃ i, i < n ∧ drawnPos size s i = (x, y))) ∧
      countWater g.cells ≤ n ∧
      ((∃ i, i < n ∧ drawnPos size s i = (size / 2, size / 2)) →
        getCell g (size / 2) (size / 2) = .ok CellType.Water) ∧
      ((∃ i, i < n ∧ drawnPos size s i = (size / 4, size / 4)) →
        getCell g (size / 4) (size / 4) = .ok CellType.Water) ∧
      ((∃ i, i < n ∧ drawnPos size s i = (3 * size / 4, 3 * size / 4)) →
        getCell g (3 * size / 4) (3 * size / 4) = .ok CellType.Water) := by
  obtain ⟨g, hrun, -, -, hcells⟩ := create_spec size h water_ratio s
  have hiff : ∀ x y, 0 ≤ x → x < size → 0 ≤ y → y < size →
      (getCell g x y = .ok CellType.Water ↔
        ∃ i, i < (numWaterCells size water_ratio).toNat ∧ drawnPos size s i = (x, y)) := by
    intro x y hx hxN hy hyN
    rw [hcells x y hx hxN hy hyN]
    constructor
    · intro hget
      by_contra hno
      rw [if_neg hno] at hget
      simp only [Except.ok.injEq] at hget
      split_ifs at hget
    · intro hdrawn
      rw [if_pos hdrawn]
  refine ⟨g, _, rfl, hrun, hiff, create_countWater size h water_ratio s hrun, ?_, ?_, ?_⟩
  · exact (hiff _ _ (by omega) (by omega) (by omega) (by omega)).mpr
  · exact (hiff _ _ (by omega) (by omega) (by omega) (by omega)).mpr
  · exact (hiff _ _ (by omega) (by omega) (by omega) (by omega)).mpr

/-- Water overwrites the ignition seed: on a `4 × 4` grid with `water_ratio = 1/4` and a
generator all of whose draws are `2`, the four drawn positions are all `(2, 2)`, the seed, and
it ends as `Water`. -/
theorem waterOverwrites_witness :
    (1 : Int) ≤ 4 ∧
      ∃ g n, Grid.create 4 (1 / 4) (constRand glibcRandMax 2) =
          .ok (g, (constRand glibcRandMax 2).drop (2 * n)) ∧
        getCell g 2 2 = .ok CellType.Water ∧ countWater g.cells ≤ n := by
  refine ⟨by decide, ?_⟩
  obtain ⟨g, n, hn, hrun, -, hcount, hseed, -, -⟩ :=
    waterOverwrites 4 (by decide) (1 / 4) (constRand glibcRandMax 2)
  have hn4 : numWaterCells 4 (1 / 4) = 4 := by
    have e := numWaterCells_eq_floor 4 (1 / 4) (by decide) (by decide) (by norm_num)
      (by norm_num)
    have e16 : f32 (((4 * 4 : Int)) : ℚ) = 16 := by
      have := f32_intCast (n := 16) (by norm_num)
      norm_num at this ⊢
      exact this
    have e4 : f32 4 = 4 := by simpa using f32_intCast (n := 4) (by norm_num)
    have s1 : (16 : ℚ) * (1 / 4) = 4 := by norm_num
    rw [e, e16, s1, e4, Int.floor_eq_iff]
    norm_num
  rw [hn4] at hn
  have hdrawn : ∃ i, i < n ∧ drawnPos 4 (constRand glibcRandMax 2) i = (4 / 2, 4 / 2) :=
    ⟨0, by rw [hn]; decide, by decide⟩
  exact ⟨g, n, hrun, hseed hdrawn, hcount⟩

/-! ## Index safety -/

/-- C18 (index safety).  For every `size >= 1`, every `water_ratio` and every generator, the
indices `size/2`, `size/4`, `3*size/4` and `rand() % size` that `initializeGrid` uses lie in
`[0, size)`, and the constructor returns a well-formed grid without an out-of-range access.
On every well-formed grid, every position that `getNeighbors` returns is in the grid,
`updateCell` at an in-range cell returns a state, and `update` returns a well-formed grid of
the same size: none of them makes an out-of-range access. -/
theorem indexSafety (size : Int) (h : 1 ≤ size) (water_ratio : ℚ) (s : Rand) :
    (0 ≤ Int.tdiv size 2 ∧ Int.tdiv size 2 < size ∧
      0 ≤ Int.tdiv size 4 ∧ Int.tdiv size 4 < size ∧
      0 ≤ Int.tdiv (3 * size) 4 ∧ Int.tdiv (3 * size) 4 < size) ∧
    (∀ k : Nat, 0 ≤ Int.tmod (k : Int) size ∧ Int.tmod (k : Int) size < size) ∧
    (∃ g s', Grid.create size water_ratio s = .ok (g, s') ∧ g.WF ∧ g.size = size) ∧
    ∀ g : Grid, g.WF → ∀ (p pstart w_speed w_direction : ℚ) (t : Rand),
      (∀ x y, ∀ nb ∈ getNeighbors g x y,
        0 ≤ nb.1 ∧ nb.1 < g.size ∧ 0 ≤ nb.2 ∧ nb.2 < g.size) ∧
      (∀ x y, 0 ≤ x → x < g.size → 0 ≤ y → y < g.size →
        ∃ c t', updateCell g x y p pstart w_speed w_direction t = .ok (c, t')) ∧
      (∃ g' t', update g p pstart w_speed w_direction t = .ok (g', t') ∧
        g'.WF ∧ g'.size = g.size) := by
  have h0 : 0 ≤ size := by omega
  have hpos : 0 < size := by omega
  have e2 : Int.tdiv size 2 = size / 2 := Int.tdiv_eq_ediv h0 (by decide)
  have e4 : Int.tdiv size 4 = size / 4 := Int.tdiv_eq_ediv h0 (by decide)
  have e34 : Int.tdiv (3 * size) 4 = 3 * size / 4 := Int.tdiv_eq_ediv (by omega) (by decide)
  refine ⟨?_, ?_, ?_, ?_⟩
  · rw [e2, e4, e34]
    omega
  · intro k
    rw [Int.tmod_eq_emod (Int.ofNat_nonneg _) h0]
    exact ⟨Int.emod_nonneg _ (by omega), Int.emod_lt_of_pos _ hpos⟩
  · obtain ⟨g, hrun, hwf, hsize, -⟩ := create_spec size h water_ratio s
    exact ⟨g, _, hrun, hwf, hsize⟩
  · intro g hwf p pstart w_speed w_direction t
    refine ⟨fun x y nb hm => getNeighbors_inRange hm, ?_, ?_⟩
    · intro x y hx hxN hy hyN
      obtain ⟨c, k, hk⟩ := updateCell_ok hwf p pstart w_speed w_direction t hx hxN hy hyN
      exact ⟨c, _, hk⟩
    · obtain ⟨g', k, hrun, hwf', hsize, -⟩ := update_spec hwf p pstart w_speed w_direction t
      exact ⟨g', _, hrun, hwf', hsize⟩

/-- Index safety for the default configuration, `size = 256` and `water_ratio = 0.175`. -/
theorem indexSafety_witness :
    (1 : Int) ≤ 256 ∧
      ∃ g s', Grid.create 256 (7 / 40) countRand = .ok (g, s') ∧ g.WF ∧ g.size = 256 :=
  ⟨by decide, (indexSafety 256 (by decide) (7 / 40) countRand).2.2.1⟩

end ForestFire
